import Mathlib

/-!
Verification of the better-auth-hedera plugin (Sign-In With Hedera).

This file gives a shallow embedding of the plugin's source:
  * `src/utils/hashing.ts` — the Hedera address checksum (`checksum`,
    `toChecksumAddress`),
  * `src/utils/signature.ts` — base64 signature transport,
  * `src/server/index.ts` — the `/siwh/nonce`, `/siwh/verify`, `/siwh/link`
    and `/siwh/unlink` endpoint handlers, modelled as pure functions over an
    explicit database state,
and proves the specification claims about them.

JavaScript numbers are modelled as `Nat` where every operation performed by
the source stays on integers below 2^53 (so IEEE doubles are exact), and as
`ℚ` in the one place the source leaves the integers: the final base-26
extraction loop of `checksum` divides by 26 with `cp /= 26`, a non-integer
division, and relies on `String.fromCharCode` truncating its argument.
-/

namespace BetterAuthHedera

/-! ## JavaScript numeric primitives used by the checksum extraction loop -/

/-- Truncation toward zero, as JavaScript's `ToIntegerOrInfinity` does. -/
def jsTrunc (q : ℚ) : Int := if q < 0 then ⌈q⌉ else ⌊q⌋

/-- JavaScript's `%` on numbers: `a - b * trunc (a / b)`. -/
def jsFmod (a b : ℚ) : ℚ := a - b * (jsTrunc (a / b) : ℚ)

/-- JavaScript's `String.fromCharCode` on one argument: the argument is
truncated toward zero and reduced mod 2^16 (`ToUint16`). -/
def jsFromCharCode (q : ℚ) : Char := Char.ofNat (jsTrunc q % 65536).toNat

/-! ## Embedding of `checksum` (src/utils/hashing.ts lines 22-67) -/

/-- `26 * 26 * 26`: three digits in base 26. -/
def p3 : Nat := 26 * 26 * 26

/-- `26 * 26 * 26 * 26 * 26`: five digits in base 26. -/
def p5 : Nat := 26 * 26 * 26 * 26 * 26

/-- Value of a decimal digit character, as `parseInt(char, 10)` on `0`-`9`. -/
def digitVal (c : Char) : Nat := c.toNat - 48

/-- The digit sequence entry for one character of the address: `.` maps to 10,
a decimal digit to its value (hashing.ts line 45). -/
def addrDigit (c : Char) : Nat := if c = '.' then 10 else digitVal c

/-- Value of a hexadecimal digit character, as `parseInt` base 16 does on
`0`-`9`, `A`-`F`, `a`-`f`. -/
def hexVal (c : Char) : Nat :=
  if c.toNat ≤ 57 then c.toNat - 48
  else if c.toNat ≤ 70 then c.toNat - 55
  else c.toNat - 87

/-- The loop of hashing.ts lines 40-42: split the id string into two-character
groups and parse each as a base-16 byte (`substring` clamps, so a trailing
single character parses alone). -/
def jsHexBytes : List Char → List Nat
  | [] => []
  | [c] => [hexVal c]
  | c0 :: c1 :: rest => (16 * hexVal c0 + hexVal c1) :: jsHexBytes rest

/-- The loop of hashing.ts lines 47-54: one pass over the digit list computing
`sd` (Horner fold mod `p3` with weight 31), `sd0` (running sum mod 11 of the
digits at even indices) and `sd1` (odd indices). -/
def checksumFold : List Nat → Nat → Nat → Nat → Nat → Nat × Nat × Nat
  | [], _, sd, sd0, sd1 => (sd, sd0, sd1)
  | x :: ds, i, sd, sd0, sd1 =>
    checksumFold ds (i + 1) ((31 * sd + x) % p3)
      (if i % 2 = 0 then (sd0 + x) % 11 else sd0)
      (if i % 2 = 0 then sd1 else (sd1 + x) % 11)

/-- The loop of hashing.ts lines 55-57: Horner fold of the ledger-id bytes
mod `p5` with weight 31. -/
def shFold (h : List Nat) : Nat := h.foldl (fun s b => (31 * s + b) % p5) 0

/-- Lines 37-59 of hashing.ts: everything `checksum` computes before the
extraction loop, i.e. the permuted checksum value `cp`. All arithmetic here is
on non-negative integers below 2^53, where JavaScript numbers are exact. -/
def checksumCp (ledgerId addr : String) : Nat :=
  let idStr := ledgerId ++ "000000000000"
  let idStr2 := if idStr.length % 2 = 1 then "0" ++ idStr else idStr
  let h := jsHexBytes idStr2.data
  let d := addr.data.map addrDigit
  let f := checksumFold d 0 0 0 0
  let sd := f.1
  let sd0 := f.2.1
  let sd1 := f.2.2
  let sh := shFold h
  let c := ((((addr.length % 5) * 11 + sd0) * 11 + sd1) * p3 + sd + sh) % p5
  (c * 1000003) % p5

/-- The extraction loop of hashing.ts lines 61-64: five times, prepend
`String.fromCharCode(97 + cp % 26)` and execute `cp /= 26` — a genuine
(non-integer) division, modelled on `ℚ`. -/
def extractLoop : Nat → ℚ → List Char → ℚ × List Char
  | 0, cp, ans => (cp, ans)
  | k + 1, cp, ans => extractLoop k (cp / 26) (jsFromCharCode (97 + jsFmod cp 26) :: ans)

/-- Embedding of `checksum` (hashing.ts lines 22-67). -/
def checksum (ledgerId addr : String) : String :=
  String.mk (extractLoop 5 ((checksumCp ledgerId addr : Nat) : ℚ) []).2

/-! ## The base-26 digits the extraction loop is claimed to produce -/

/-- The `k` base-26 digits of `m`, most significant first, each rendered as
the letter with code `97 + digit`. -/
def specDigits : Nat → Nat → List Char
  | 0, _ => []
  | k + 1, m => specDigits k (m / 26) ++ [Char.ofNat (97 + m % 26)]

/-! ## The checksum algorithm as the specification words it (for claim C1) -/

/-- Splits a list into the elements at even and at odd 0-indexed positions. -/
def alternate : List Nat → List Nat × List Nat
  | [] => ([], [])
  | x :: l => (x :: (alternate l).2, (alternate l).1)

/-- Running sum mod 11. -/
def runSum11 (l : List Nat) : Nat := l.foldl (fun s x => (s + x) % 11) 0

/-- Horner-style weighted sum mod `m` with multiplier `w`. -/
def horner (m w : Nat) (l : List Nat) : Nat := l.foldl (fun s x => (w * s + x) % m) 0

/-- Byte values of an even-length hexadecimal string, two hex digits per
byte. -/
def specBytes : List Char → List Nat
  | c0 :: c1 :: rest => (16 * hexVal c0 + hexVal c1) :: specBytes rest
  | _ => []

/-- The checksum algorithm exactly as the specification states it (spec §4.1,
steps 1-7): digit sequence with 10 for `.`; `sd0`/`sd1` running sums mod 11 at
even/odd 0-indexed positions; `sd` the Horner fold mod `p3` with multiplier
31 over all digits; `sh` the same Horner fold mod `p5` over the byte values
of the ledger id padded with twelve zero hex digits; combine, permute by
1000003 mod `p5`, and render the five base-26 digits of the result as the
letters `'a' + digit`, most significant first. -/
def specChecksum (ledgerId addr : String) : String :=
  let d := addr.data.map addrDigit
  let sd0 := runSum11 (alternate d).1
  let sd1 := runSum11 (alternate d).2
  let sd := horner p3 31 d
  let sh := horner p5 31 (specBytes (ledgerId ++ "000000000000").data)
  let c := ((((addr.length % 5) * 11 + sd0) * 11 + sd1) * p3 + sd + sh) % p5
  let cp := (c * 1000003) % p5
  String.mk (specDigits 5 cp)

/-! ## Embedding of `toChecksumAddress` (hashing.ts lines 69-105) -/

/-- The `HederaChainId` enum (src/types.ts). -/
inductive HederaChainId
  | mainnet
  | testnet
  | previewnet
  | devnet
deriving DecidableEq

/-- The enum's string values (src/types.ts lines 3-8). -/
def chainIdStr : HederaChainId → String
  | .mainnet => "hedera:mainnet"
  | .testnet => "hedera:testnet"
  | .previewnet => "hedera:previewnet"
  | .devnet => "hedera:devnet"

/-- The `ledgerIdMap` of hashing.ts lines 81-86: devnet shares testnet's
code. -/
def ledgerIdMap : HederaChainId → String
  | .mainnet => "00"
  | .testnet => "01"
  | .previewnet => "02"
  | .devnet => "01"

/-- Matches one occurrence of the regex group `(0|(?:[1-9]\d*))`: a literal
`0`, or a nonzero digit followed by the maximal run of digits. (The regex
engine's backtracking cannot produce any other split here, because each
group is followed by a character that no digit matches.) -/
def parseNum : List Char → Option (List Char × List Char)
  | [] => none
  | c :: rest =>
    if c = '0' then some ([c], rest)
    else if '1' ≤ c ∧ c ≤ '9' then
      some (c :: rest.takeWhile Char.isDigit, rest.dropWhile Char.isDigit)
    else none

/-- Matches the literal `\.` of the regex: the rest after a leading dot. -/
def expectDot : List Char → Option (List Char)
  | [] => none
  | c :: r => if c = '.' then some r else none

/-- Matches the tail `(?:-([a-z]{5}))?$` of the address regex: either the end
of the string, or a dash followed by exactly five lowercase letters. -/
def parseSuffix : List Char → Option (Option (List Char))
  | [] => some none
  | c :: cs =>
    if c = '-' then
      if cs.length = 5 ∧ cs.all (fun x => decide ('a' ≤ x) && decide (x ≤ 'z')) = true then
        some (some cs)
      else none
    else none

/-- The full-match semantics of the address regex of hashing.ts line 74:
`^(0|(?:[1-9]\d*))\.(0|(?:[1-9]\d*))\.(0|(?:[1-9]\d*))(?:-([a-z]{5}))?$`,
returning the three numeric capture groups and the optional checksum
group. -/
def parseAddr (s : List Char) : Option (List Char × List Char × List Char × Option (List Char)) :=
  match parseNum s with
  | none => none
  | some (n1, r1) =>
    match expectDot r1 with
    | none => none
    | some r2 =>
      match parseNum r2 with
      | none => none
      | some (n2, r3) =>
        match expectDot r3 with
        | none => none
        | some r4 =>
          match parseNum r4 with
          | none => none
          | some (n3, r5) =>
            match parseSuffix r5 with
            | none => none
            | some suf => some (n1, n2, n3, suf)

/-- JavaScript's `parseInt` on a string of decimal digits. Exact for values
below 2^53, where IEEE doubles represent integers exactly; all addresses
this development evaluates stay far below that. -/
def natOfDigits (l : List Char) : Nat := l.foldl (fun a c => 10 * a + (c.toNat - 48)) 0

/-- The record returned by `toChecksumAddress` on a parseable address
(hashing.ts lines 8-18 and 93-103). -/
structure ValidChecksumResult where
  isValid : Bool
  status : Nat
  num1 : Nat
  num2 : Nat
  num3 : Nat
  givenChecksum : Option String
  correctChecksum : String
  noChecksumFormat : String
  withChecksumFormat : String
deriving DecidableEq

/-- Result type of `toChecksumAddress` (hashing.ts lines 3-20): `invalid` is
the `{ isValid: false, status: 0 }` early return. -/
inductive ChecksumAddressResult
  | invalid
  | valid (r : ValidChecksumResult)
deriving DecidableEq

/-- Embedding of `toChecksumAddress` (hashing.ts lines 69-105). The numeric
components go through `parseInt` and are re-rendered with the template
literal, which on integers below 2^53 prints the exact decimal digits. -/
def toChecksumAddress (chainId : HederaChainId) (address : String) : ChecksumAddressResult :=
  match parseAddr address.data with
  | none => .invalid
  | some (n1, n2, n3, suf) =>
    let lid := ledgerIdMap chainId
    let a1 := natOfDigits n1
    let a2 := natOfDigits n2
    let a3 := natOfDigits n3
    let ad := Nat.repr a1 ++ "." ++ Nat.repr a2 ++ "." ++ Nat.repr a3
    let c := checksum lid ad
    let s : Nat :=
      match suf with
      | none => 2
      | some g => if c = String.mk g then 3 else 1
    .valid {
      isValid := s != 1
      status := s
      num1 := a1
      num2 := a2
      num3 := a3
      givenChecksum := suf.map String.mk
      correctChecksum := c
      noChecksumFormat := ad
      withChecksumFormat := ad ++ "-" ++ c }

/-! ## The endpoint body validation (server/index.ts, zod `walletAddress`) -/

/-- Full-match semantics of the zod body regex used by all four endpoints
(server/index.ts): `^(0|(?:[1-9]\d*))\.(0|(?:[1-9]\d*))\.(0|(?:[1-9]\d*))$`
— the same shape as the checksum regex but with no suffix group. -/
def endpointParse (s : List Char) : Option (List Char × List Char × List Char) :=
  match parseNum s with
  | none => none
  | some (n1, r1) =>
    match expectDot r1 with
    | none => none
    | some r2 =>
      match parseNum r2 with
      | none => none
      | some (n2, r3) =>
        match expectDot r3 with
        | none => none
        | some r4 =>
          match parseNum r4 with
          | none => none
          | some (n3, r5) => if r5 = [] then some (n1, n2, n3) else none

/-- Whether the zod body validation accepts a `walletAddress` string. -/
def endpointAccepts (s : String) : Bool := (endpointParse s.data).isSome

/-- A decimal-number token as the spec words it: non-empty, all decimal
digits, no leading zero unless it is the literal `0`. -/
def numToken (l : List Char) : Bool :=
  decide (l ≠ []) && l.all Char.isDigit && (decide (l = ['0']) || decide (l.head? ≠ some '0'))

/-- A checksum token: exactly five lowercase ASCII letters. -/
def checksumToken (l : List Char) : Bool :=
  decide (l.length = 5) && l.all (fun c => decide ('a' ≤ c) && decide (c ≤ 'z'))

/-- A string of the claimed accepted shape: `shard.realm.number` with the
three components non-negative integers without leading zeros, optionally
followed by `-` and a 5-lowercase-letter checksum. -/
def specWellFormed (s : String) : Prop :=
  ∃ n1 n2 n3 rest, numToken n1 = true ∧ numToken n2 = true ∧ numToken n3 = true ∧
    (rest = [] ∨ ∃ t, checksumToken t = true ∧ rest = '-' :: t) ∧
    s.data = n1 ++ '.' :: (n2 ++ '.' :: (n3 ++ rest))

/-- The raw characters a parsed optional checksum group occupied in the
input: nothing, or a dash followed by the group. -/
def sufRest : Option (List Char) → List Char
  | none => []
  | some t => '-' :: t

/-! ## Embedding of src/utils/signature.ts (base64 signature transport) -/

/-- The standard base64 alphabet. -/
def b64Alphabet : List Char :=
  "ABCDEFGHIJKLMNOPQRSTUVWXYZabcdefghijklmnopqrstuvwxyz0123456789+/".data

/-- The base64 character of a 6-bit value. -/
def b64Char (v : Nat) : Char := b64Alphabet.getD v '?'

/-- The 6-bit value of a base64 character, if it is one. -/
def b64Val (c : Char) : Option Nat := b64Alphabet.findIdx? (fun x => x == c)

/-- Standard base64 encoding of a byte list, with `=` padding. -/
def b64Encode : List Nat → List Char
  | [] => []
  | [a] => [b64Char (a / 4), b64Char (a % 4 * 16), '=', '=']
  | [a, b] => [b64Char (a / 4), b64Char (a % 4 * 16 + b / 16), b64Char (b % 16 * 4), '=']
  | a :: b :: c :: rest =>
    b64Char (a / 4) :: b64Char (a % 4 * 16 + b / 16) :: b64Char (b % 16 * 4 + c / 64) ::
      b64Char (c % 64) :: b64Encode rest

/-- Strict standard base64 decoding: groups of four characters, `=` padding
only at the very end, `none` on any malformed input. -/
def b64Decode : List Char → Option (List Nat)
  | [] => some []
  | c1 :: c2 :: c3 :: c4 :: rest =>
    match b64Val c1, b64Val c2 with
    | some v1, some v2 =>
      if c3 = '=' then
        if c4 = '=' ∧ rest = [] then some [v1 * 4 + v2 / 16] else none
      else
        match b64Val c3 with
        | some v3 =>
          if c4 = '=' then
            if rest = [] then some [v1 * 4 + v2 / 16, v2 % 16 * 16 + v3 / 4] else none
          else
            match b64Val c4 with
            | some v4 =>
              match b64Decode rest with
              | some tail =>
                some ((v1 * 4 + v2 / 16) :: (v2 % 16 * 16 + v3 / 4) :: (v3 % 4 * 64 + v4) :: tail)
              | none => none
            | none => none
        | none => none
    | _, _ => none
  | _ => none

/-- Modelled from the spec: JavaScript's `btoa` — standard base64 of a
binary string whose char codes must all be below 256 (it throws, here
`none`, otherwise). The platform primitive itself is not repository code. -/
def jsBtoa (codes : List Nat) : Option String :=
  if codes.all (fun b => decide (b < 256)) then some (String.mk (b64Encode codes)) else none

/-- Modelled from the spec: JavaScript's `atob` — strict standard base64
decoding to a binary string of char codes. -/
def jsAtob (s : String) : Option (List Nat) := b64Decode s.data

/-- Modelled from the spec: Node's `Buffer.from(bytes).toString("base64")`,
standard base64 of the bytes. -/
def bufferToBase64 (bytes : List Nat) : String := String.mk (b64Encode bytes)

/-- Modelled from the spec: `new Uint8Array(Buffer.from(s, "base64"))` on
well-formed base64 input. -/
def bufferFromBase64 (s : String) : Option (List Nat) := b64Decode s.data

/-- `signatureToBase64`, Node branch (signature.ts lines 25-27). -/
def signatureToBase64Node (signature : List Nat) : String := bufferToBase64 signature

/-- `signatureToBase64`, browser branch (signature.ts lines 28-32):
`String.fromCharCode(...signature)` (`ToUint16` of each byte) then `btoa`. -/
def signatureToBase64Browser (signature : List Nat) : Option String :=
  jsBtoa (signature.map (fun b => b % 65536))

/-- `base64ToSignature`, Node branch (signature.ts lines 43-45). -/
def base64ToSignatureNode (s : String) : Option (List Nat) := bufferFromBase64 s

/-- `base64ToSignature`, browser branch (signature.ts lines 46-54): `atob`,
then `charCodeAt` of every position into a `Uint8Array` (stores mod 256). -/
def base64ToSignatureBrowser (s : String) : Option (List Nat) :=
  (jsAtob s).map (fun bin => bin.map (fun c => c % 256))

/-! ## Embedding of the endpoint handlers (src/server/index.ts)

The handlers are `async` functions whose external collaborators (the
better-auth `adapter`/`internalAdapter` and the injected capabilities) are
not repository code. Each request is handled sequentially (spec §5), so a
handler is modelled as a pure function from an explicit database state and
the request body to a result and the new state. The injected
`verifyMessage` capability is a function parameter; the `getNonce`
capability, session-token creation and the current time are parameters as
well. A ghost field records the arguments passed to `verifyMessage` and the
identifier used for the nonce lookup, so that theorems can speak about
them. Fields the claims never touch (`createdAt` timestamps, password
hashing, e-mail verification dispatch, cookie setting) are omitted. -/

/-- A stored verification value (nonce), as created by the `/siwh/nonce`
handler: `identifier = "siwh:" ++ checksummedAddress ++ ":" ++ chainId`. -/
structure VerificationRecord where
  id : Nat
  identifier : String
  value : String
  expiresAt : Int
deriving DecidableEq

/-- A row of the `walletAddress` table (src/database/schema.ts). -/
structure WalletRecord where
  userId : Nat
  address : String
  chainId : HederaChainId
  isPrimary : Bool
deriving DecidableEq

/-- A better-auth `account` record (linked-auth record): the handlers create
them with `providerId = "siwh"` and `accountId = walletAddress ++ ":" ++
chainId`. -/
structure AccountRecord where
  id : Nat
  userId : Nat
  providerId : String
  accountId : String
deriving DecidableEq

/-- A better-auth `user` record, reduced to the fields the handlers read. -/
structure UserRecord where
  id : Nat
  email : String
  name : String
deriving DecidableEq

/-- The database state the handlers read and write. `nextId` supplies fresh
ids. -/
structure DB where
  verifications : List VerificationRecord
  wallets : List WalletRecord
  accounts : List AccountRecord
  users : List UserRecord
  nextId : Nat
deriving DecidableEq

/-- Modelled from the spec: the key-value challenge store (§4.2) —
`findVerificationValue` returns the stored record under an identifier. -/
def findVerificationValue (db : DB) (key : String) : Option VerificationRecord :=
  db.verifications.find? (fun v => v.identifier == key)

/-- Modelled from the spec: `deleteVerificationValue` removes the record
with the given id. -/
def deleteVerificationValue (db : DB) (i : Nat) : DB :=
  { db with verifications := db.verifications.filter (fun v => v.id != i) }

/-- Modelled from the spec: `adapter.findOne` on `walletAddress` with an
exact `(address, chainId)` filter. -/
def findWallet (db : DB) (addr : String) (chain : HederaChainId) : Option WalletRecord :=
  db.wallets.find? (fun w => w.address == addr && w.chainId == chain)

/-- Modelled from the spec: `adapter.findOne` on `walletAddress` filtered by
address alone (any chain). -/
def findWalletByAddress (db : DB) (addr : String) : Option WalletRecord :=
  db.wallets.find? (fun w => w.address == addr)

/-- Modelled from the spec: `adapter.findOne` on `user` by id. -/
def findUserById (db : DB) (i : Nat) : Option UserRecord :=
  db.users.find? (fun u => u.id == i)

/-- Modelled from the spec: `internalAdapter.findUserByEmail`. -/
def findUserByEmail (db : DB) (e : String) : Option UserRecord :=
  db.users.find? (fun u => u.email == e)

/-- The plugin options the handlers consult (server/index.ts lines
476-484). `baseOrigin` stands for `getOrigin(ctx.context.baseURL)`. -/
structure SiwhOptions where
  domain : String
  emailDomainName : Option String
  anonymous : Option Bool
  autoSignUp : Bool
  baseOrigin : String
deriving DecidableEq

/-- The arguments the handlers pass to the injected `verifyMessage`
capability; the cacao payload's `domain`, `aud` and `iss` are all
`options.domain` and its version is `"1"`, so only `domain` is kept. -/
structure VerifyMessageArgs where
  message : String
  signature : List Nat
  address : String
  chainId : HederaChainId
  nonce : String
  domain : String
deriving DecidableEq

/-- The `/siwh/verify` request body after zod parsing (defaults applied). -/
structure VerifyBody where
  message : String
  signature : String
  walletAddress : String
  chainId : HederaChainId
  isSignUp : Bool
  email : Option String
  name : Option String
deriving DecidableEq

/-- The error outcomes of the `/siwh/verify` handler. `validationFailed` is
the zod rejection of the request body (before the handler runs). -/
inductive VerifyError
  | validationFailed
  | invalidAddress
  | emailRequired
  | nonceNotFoundOrExpired
  | signatureVerificationFailed
  | userNotFound
  | emailAlreadyExists
  | sessionCreationFailed
deriving DecidableEq

/-- The success payload of `/siwh/verify`: `token = none` on the sign-up
path (sign-up completes without a session), `some token` on sign-in. -/
structure VerifyOk where
  token : Option String
  user : UserRecord
deriving DecidableEq

/-- Result of a `/siwh/verify` request. -/
inductive VResult
  | failure (e : VerifyError)
  | success (v : VerifyOk)
deriving DecidableEq

/-- Output of the modelled `/siwh/verify` handler: the result, the new
database state, and ghost observations of the `verifyMessage` call and the
nonce-lookup key. -/
structure VerifyOut where
  result : VResult
  db : DB
  verifierArgs : Option VerifyMessageArgs
  nonceKey : Option String
deriving DecidableEq

/-- Lines 610-627 of server/index.ts (with the zod body validation in
front): address validation via `toChecksumAddress`, the canonical
checksummed form, and the email-presence check. Returns the checksum record
and the nonce-store key. -/
def verifyGate (opts : SiwhOptions) (body : VerifyBody) :
    Except VerifyError (ValidChecksumResult × String) :=
  if endpointAccepts body.walletAddress then
    match toChecksumAddress body.chainId body.walletAddress with
    | .invalid => .error .invalidAddress
    | .valid cr =>
      if ¬ (opts.anonymous.getD true) ∧ body.email = none then .error .emailRequired
      else .ok (cr, "siwh:" ++ cr.withChecksumFormat ++ ":" ++ chainIdStr body.chainId)
  else .error .validationFailed

/-- Lines 630-642: look up the stored nonce and treat a missing or expired
record (strictly past `expiresAt`) as the same failure. -/
def consumeCheck (db : DB) (now : Int) (key : String) :
    Except VerifyError VerificationRecord :=
  match findVerificationValue db key with
  | none => .error .nonceNotFoundOrExpired
  | some v => if now > v.expiresAt then .error .nonceNotFoundOrExpired else .ok v

/-- Lines 646-665: the argument record passed to the injected
`verifyMessage` capability. The address field is the raw request
`walletAddress`, not the checksummed form. -/
def mkVerifierArgs (opts : SiwhOptions) (message sigB64 rawAddress : String)
    (chain : HederaChainId) (nonce : String) : VerifyMessageArgs :=
  { message := message
    signature := (b64Decode sigB64.data).getD []
    address := rawAddress
    chainId := chain
    nonce := nonce
    domain := opts.domain }

/-- Lines 762-781 (and 1057-1075 in the link handler): create the
`walletAddress` row and the `siwh` account record for a user. -/
def createWalletAndAccount (db : DB) (uid : Nat) (walletAddress : String)
    (chain : HederaChainId) (primary : Bool) : DB :=
  let dbw := { db with wallets := db.wallets ++
      [({ userId := uid, address := walletAddress, chainId := chain,
          isPrimary := primary } : WalletRecord)] }
  { dbw with
    accounts := dbw.accounts ++
      [({ id := dbw.nextId, userId := uid, providerId := "siwh",
          accountId := walletAddress ++ ":" ++ chainIdStr chain } : AccountRecord)],
    nextId := dbw.nextId + 1 }

/-- Lines 679-727: resolve the user — exact `(address, chainId)` wallet
record first, then the same address on any chain. Returns the exact-match
record (if any) alongside the resolved user. -/
def resolveUser (db : DB) (walletAddress : String) (chain : HederaChainId) :
    Option WalletRecord × Option UserRecord :=
  let existing := findWallet db walletAddress chain
  let user :=
    match existing with
    | some w => findUserById db w.userId
    | none =>
      match findWalletByAddress db walletAddress with
      | some w => findUserById db w.userId
      | none => none
  (existing, user)

/-- Lines 729-905: everything after the nonce was deleted — user
resolution, the sign-up path (lines 729-849) and the sign-in path with the
cross-chain credential creation (lines 850-905). `tok` is the session token
the external store would create (`none` models `createSession` failing). -/
def finishVerify (opts : SiwhOptions) (tok : Option String) (db1 : DB) (body : VerifyBody)
    (walletAddress : String) (args : VerifyMessageArgs) (key : String) : VerifyOut :=
  match resolveUser db1 walletAddress body.chainId with
  | (_, none) =>
    if ¬ opts.autoSignUp ∧ ¬ body.isSignUp then
      ⟨.failure .userNotFound, db1, some args, some key⟩
    else
      let dom := opts.emailDomainName.getD opts.baseOrigin
      let isAnon := opts.anonymous.getD true
      let userEmail :=
        if ¬ isAnon ∧ body.email.isSome then body.email.getD ""
        else walletAddress ++ "@" ++ dom
      match findUserByEmail db1 userEmail with
      | some _ => ⟨.failure .emailAlreadyExists, db1, some args, some key⟩
      | none =>
        let newUser : UserRecord :=
          { id := db1.nextId, email := userEmail, name := body.name.getD walletAddress }
        let db2 := { db1 with users := db1.users ++ [newUser], nextId := db1.nextId + 1 }
        let db3 := createWalletAndAccount db2 newUser.id walletAddress body.chainId true
        ⟨.success { token := none, user := newUser }, db3, some args, some key⟩
  | (existing, some user) =>
    let db2 :=
      match existing with
      | some _ => db1
      | none => createWalletAndAccount db1 user.id walletAddress body.chainId false
    match tok with
    | none => ⟨.failure .sessionCreationFailed, db2, some args, some key⟩
    | some t => ⟨.success { token := some t, user := user }, db2, some args, some key⟩

/-- The `/siwh/verify` handler (server/index.ts lines 537-915, the variant
whose `verifyMessage` receives the raw address): validate, find the nonce,
verify the signature, delete the nonce only after the verifier accepted,
then resolve or create the user and request a session. -/
def verifySiwhMessage (opts : SiwhOptions) (verifier : VerifyMessageArgs → Bool)
    (now : Int) (tok : Option String) (db : DB) (body : VerifyBody) : VerifyOut :=
  match verifyGate opts body with
  | .error e => ⟨.failure e, db, none, none⟩
  | .ok (cr, key) =>
    match consumeCheck db now key with
    | .error e => ⟨.failure e, db, none, some key⟩
    | .ok v =>
      let args := mkVerifierArgs opts body.message body.signature body.walletAddress
        body.chainId v.value
      if verifier args then
        finishVerify opts tok (deleteVerificationValue db v.id) body
          cr.withChecksumFormat args key
      else ⟨.failure .signatureVerificationFailed, db, some args, some key⟩

/-- The caller's session as the link/unlink handlers see it. -/
structure SessionInfo where
  userId : Nat
  isAnonymous : Bool
deriving DecidableEq

/-- The `/siwh/link` request body after zod parsing. -/
structure LinkBody where
  message : String
  signature : String
  walletAddress : String
  chainId : HederaChainId
deriving DecidableEq

/-- Error outcomes of the `/siwh/link` handler. -/
inductive LinkError
  | validationFailed
  | notSignedIn
  | anonymousForbidden
  | invalidAddress
  | nonceNotFoundOrExpired
  | signatureVerificationFailed
  | alreadyLinkedSelf
  | alreadyLinkedOther
deriving DecidableEq

/-- Result of a `/siwh/link` request. -/
inductive LResult
  | failure (e : LinkError)
  | success (walletAddress : String) (chainId : HederaChainId)
deriving DecidableEq

/-- Output of the modelled `/siwh/link` handler, with the same ghost
observations as `VerifyOut`. -/
structure LinkOut where
  result : LResult
  db : DB
  verifierArgs : Option VerifyMessageArgs
  nonceKey : Option String
deriving DecidableEq

/-- Lines 920-978 of the link handler (with the zod body validation in
front): session present, non-anonymous, and a valid address. -/
def linkGate (session : Option SessionInfo) (body : LinkBody) :
    Except LinkError (SessionInfo × ValidChecksumResult × String) :=
  if endpointAccepts body.walletAddress then
    match session with
    | none => .error .notSignedIn
    | some s =>
      if s.isAnonymous then .error .anonymousForbidden
      else
        match toChecksumAddress body.chainId body.walletAddress with
        | .invalid => .error .invalidAddress
        | .valid cr =>
          .ok (s, cr, "siwh:" ++ cr.withChecksumFormat ++ ":" ++ chainIdStr body.chainId)
  else .error .validationFailed

/-- Lines 1032-1081 of the link handler: after the nonce was deleted,
reject wallets already linked (to the caller or to another user), else
create the non-primary wallet record and its `siwh` account record. -/
def finishLink (s : SessionInfo) (db1 : DB) (body : LinkBody) (walletAddress : String)
    (args : VerifyMessageArgs) (key : String) : LinkOut :=
  match findWallet db1 walletAddress body.chainId with
  | some w =>
    if w.userId = s.userId then ⟨.failure .alreadyLinkedSelf, db1, some args, some key⟩
    else ⟨.failure .alreadyLinkedOther, db1, some args, some key⟩
  | none =>
    ⟨.success walletAddress body.chainId,
      createWalletAndAccount db1 s.userId walletAddress body.chainId false,
      some args, some key⟩

/-- The `/siwh/link` handler (server/index.ts lines 916-1091): requires an
authenticated, non-anonymous session; validates the address; consumes the
nonce and verifies the signature exactly as `/siwh/verify` does (the
verifier again receives the raw address); rejects wallets already linked to
the caller or to another user; otherwise creates a non-primary wallet
record and its `siwh` account record. -/
def linkSiwhWallet (opts : SiwhOptions) (verifier : VerifyMessageArgs → Bool)
    (now : Int) (session : Option SessionInfo) (db : DB) (body : LinkBody) : LinkOut :=
  match linkGate session body with
  | .error e => ⟨.failure e, db, none, none⟩
  | .ok (s, cr, key) =>
    match consumeCheck db now key with
    | .error _ => ⟨.failure .nonceNotFoundOrExpired, db, none, some key⟩
    | .ok v =>
      let args := mkVerifierArgs opts body.message body.signature body.walletAddress
        body.chainId v.value
      if verifier args then
        finishLink s (deleteVerificationValue db v.id) body cr.withChecksumFormat args key
      else ⟨.failure .signatureVerificationFailed, db, some args, some key⟩

/-- The `/siwh/unlink` request body after zod parsing. -/
structure UnlinkBody where
  walletAddress : String
  chainId : HederaChainId
deriving DecidableEq

/-- Error outcomes of the `/siwh/unlink` handler. -/
inductive UnlinkError
  | validationFailed
  | notSignedIn
  | invalidAddress
  | lastAccount
  | accountNotFound
deriving DecidableEq

/-- Result of a `/siwh/unlink` request. -/
inductive UResult
  | failure (e : UnlinkError)
  | success
deriving DecidableEq

/-- Output of the modelled `/siwh/unlink` handler. -/
structure UnlinkOut where
  result : UResult
  db : DB
deriving DecidableEq

/-- The `/siwh/unlink` handler (server/index.ts lines 1092-1184):
validates; loads the caller's account records (`findAccounts`); refuses to
remove the last one unless `allowUnlinkingAll`; searches the caller's
accounts for one with `accountId` equal to the checksummed wallet address
and `providerId = "siwh"`; on a match deletes the account record and every
`walletAddress` row with that `(address, chainId)`. -/
def unlinkSiwhWallet (allowUnlinkAll : Bool) (session : Option SessionInfo)
    (db : DB) (body : UnlinkBody) : UnlinkOut :=
  if endpointAccepts body.walletAddress then
    match session with
    | none => ⟨.failure .notSignedIn, db⟩
    | some s =>
      match toChecksumAddress body.chainId body.walletAddress with
      | .invalid => ⟨.failure .invalidAddress, db⟩
      | .valid cr =>
        let walletAddress := cr.withChecksumFormat
        let accounts := db.accounts.filter (fun a => a.userId == s.userId)
        if accounts.length = 1 ∧ ¬ allowUnlinkAll then ⟨.failure .lastAccount, db⟩
        else
          match accounts.find? (fun a => a.accountId == walletAddress &&
              a.providerId == "siwh") with
          | none => ⟨.failure .accountNotFound, db⟩
          | some acc =>
            let db1 := { db with accounts := db.accounts.filter (fun a => a.id != acc.id) }
            let db2 := { db1 with wallets := (db1.wallets.filter
                (fun w => ¬ (w.address == walletAddress && w.chainId == body.chainId))) }
            ⟨.success, db2⟩
  else ⟨.failure .validationFailed, db⟩

/-! ## Claim C6: unlink never finds the plugin's own account records -/

/-- The caller used in the unlink evaluation: an authenticated,
non-anonymous user with id 7. -/
def c6Session : SessionInfo := ⟨7, false⟩

/-- A state in which user 7 owns two linked-auth records — the `siwh` one
for (0.0.123, mainnet) exactly as `createWalletAndAccount` stores it — and
the matching `walletAddress` row. -/
def c6Db : DB :=
  { verifications := []
    wallets := [⟨7, "0.0.123-vfmkw", .mainnet, true⟩]
    accounts := [⟨1, 7, "siwh", "0.0.123-vfmkw:hedera:mainnet"⟩, ⟨2, 7, "credentials", "7"⟩]
    users := [⟨7, "u@example.com", "n"⟩]
    nextId := 10 }

/-! ## Concrete fixtures for the witnesses and the C5 counterexample -/

/-- Options used by the concrete evaluations: anonymous allowed (default),
`autoSignUp = true`. -/
def wOpts : SiwhOptions := ⟨"ex.com", none, none, true, "origin"⟩

/-- A verify request for `0.0.123` on mainnet. -/
def wBody : VerifyBody := ⟨"msg", "AA==", "0.0.123", .mainnet, false, none, none⟩

/-- One live nonce for the mainnet canonical key, expiring at time 100. -/
def wDb : DB := ⟨[⟨1, "siwh:0.0.123-vfmkw:hedera:mainnet", "nonce1", 100⟩], [], [], [], 0⟩

/-- The arguments the verify handler passes to the verifier for `wBody`:
the raw address, and the decoded one-byte signature of `"AA=="`. -/
def wArgs : VerifyMessageArgs := ⟨"msg", [0], "0.0.123", .mainnet, "nonce1", "ex.com"⟩

/-- A verify request for `0.0.123` on devnet. -/
def w5Body : VerifyBody := ⟨"msg", "AA==", "0.0.123", .devnet, false, none, none⟩

/-- User 7 owns the credential the plugin itself would store for
`(0.0.123, testnet)` — address `0.0.123-esxsf` — and a live nonce exists
under the devnet canonical key (which is the same string, ledger id `01`). -/
def w5Db : DB :=
  ⟨[⟨1, "siwh:0.0.123-esxsf:hedera:devnet", "nonce1", 100⟩],
   [⟨7, "0.0.123-esxsf", .testnet, true⟩],
   [⟨2, 7, "siwh", "0.0.123-esxsf:hedera:testnet"⟩],
   [⟨7, "seven@example.com", "seven"⟩], 10⟩

/-- User 7 owns the `(0.0.123, testnet)` credential as the plugin stores it,
and a live nonce exists under the mainnet canonical key. -/
def c5Db : DB :=
  ⟨[⟨1, "siwh:0.0.123-vfmkw:hedera:mainnet", "nonce1", 100⟩],
   [⟨7, "0.0.123-esxsf", .testnet, true⟩],
   [⟨2, 7, "siwh", "0.0.123-esxsf:hedera:testnet"⟩],
   [⟨7, "seven@example.com", "seven"⟩], 10⟩

/-! ## Theorems -/

theorem specDigits_length (k m : Nat) : (specDigits k m).length = k := by
  induction k generalizing m with
  | zero => rfl
  | succ k ih => simp [specDigits, ih]

/-- One step of the extraction loop, executed at the rational `n / 26 ^ i`,
produces exactly the letter of the base-26 digit `(n / 26 ^ i) % 26` (integer
division): the truncation in `String.fromCharCode` discards the fractional
part that the repeated `/= 26` accumulated. -/
theorem extractLoop_eq (k : Nat) : ∀ (i n : Nat) (ans : List Char),
    extractLoop k ((n : ℚ) / ((26 ^ i : Nat) : ℚ)) ans
      = ((n : ℚ) / ((26 ^ (i + k) : Nat) : ℚ), specDigits k (n / 26 ^ i) ++ ans) := by
  induction k with
  | zero => intro i n ans; simp [extractLoop, specDigits]
  | succ k ih =>
    intro i n ans
    have hdiv : ((n : ℚ) / ((26 ^ i : Nat) : ℚ)) / 26 = (n : ℚ) / ((26 ^ (i + 1) : Nat) : ℚ) := by
      rw [div_div]
      congr 1
      push_cast [pow_succ]
      ring
    have hfloor : ∀ j : Nat, ⌊(n : ℚ) / ((26 ^ j : Nat) : ℚ)⌋ = (n / 26 ^ j : Nat) := by
      intro j
      exact_mod_cast Rat.floor_natCast_div_natCast n (26 ^ j)
    have htriv : ∀ j : Nat, (0 : ℚ) ≤ (n : ℚ) / ((26 ^ j : Nat) : ℚ) := by
      intro j
      positivity
    have htrunc : ∀ j : Nat, jsTrunc ((n : ℚ) / ((26 ^ j : Nat) : ℚ)) = (n / 26 ^ j : Nat) := by
      intro j
      rw [jsTrunc, if_neg (by exact not_lt.mpr (htriv j)), hfloor j]
    obtain ⟨M, hM⟩ : ∃ m, n / 26 ^ i = m := ⟨_, rfl⟩
    obtain ⟨Q, hQ⟩ : ∃ q, n / 26 ^ (i + 1) = q := ⟨_, rfl⟩
    have hMQ : M / 26 = Q := by
      rw [← hM, ← hQ, Nat.div_div_eq_div_mul, pow_succ]
    -- the character produced by this iteration
    have hchar : jsFromCharCode (97 + jsFmod ((n : ℚ) / ((26 ^ i : Nat) : ℚ)) 26)
        = Char.ofNat (97 + M % 26) := by
      have hq : jsFmod ((n : ℚ) / ((26 ^ i : Nat) : ℚ)) 26
          = (n : ℚ) / ((26 ^ i : Nat) : ℚ) - 26 * (((Q : Int) : ℚ)) := by
        rw [jsFmod, hdiv, htrunc (i + 1), hQ]
      have hvfloor : ⌊(97 : ℚ) + ((n : ℚ) / ((26 ^ i : Nat) : ℚ) - 26 * (((Q : Int) : ℚ)))⌋
          = ((M : Int)) + ((97 : Int) - 26 * (Q : Int)) := by
        have hcast : (97 : ℚ) + ((n : ℚ) / ((26 ^ i : Nat) : ℚ) - 26 * (((Q : Int) : ℚ)))
            = (n : ℚ) / ((26 ^ i : Nat) : ℚ) + ((97 - 26 * (Q : Int) : Int) : ℚ) := by
          push_cast
          ring
        rw [hcast, Int.floor_add_int, hfloor i, hM]
      have hdigit : ((M : Int)) + ((97 : Int) - 26 * (Q : Int)) = ((97 + M % 26 : Nat) : Int) := by
        omega
      have hnonneg : (0 : ℚ) ≤ (97 : ℚ) + ((n : ℚ) / ((26 ^ i : Nat) : ℚ) - 26 * (((Q : Int) : ℚ))) := by
        have h1 : (0 : Int) ≤ ⌊(97 : ℚ) + ((n : ℚ) / ((26 ^ i : Nat) : ℚ) - 26 * (((Q : Int) : ℚ)))⌋ := by
          rw [hvfloor, hdigit]
          positivity
        calc (0 : ℚ) ≤ (⌊(97 : ℚ) + ((n : ℚ) / ((26 ^ i : Nat) : ℚ) - 26 * (((Q : Int) : ℚ)))⌋ : ℚ) := by
              exact_mod_cast h1
          _ ≤ _ := Int.floor_le _
      rw [jsFromCharCode, hq, jsTrunc, if_neg (not_lt.mpr hnonneg), hvfloor, hdigit]
      have hlt : (97 + M % 26) < 65536 := by
        have := Nat.mod_lt M (by norm_num : 0 < 26)
        omega
      congr 1
      omega
    show extractLoop k (((n : ℚ) / ((26 ^ i : Nat) : ℚ)) / 26) (_ :: ans) = _
    rw [hchar, hdiv, ih (i + 1) n]
    have hexp : i + 1 + k = i + (k + 1) := by omega
    rw [hexp, hQ, hM]
    show (_, specDigits k Q ++ Char.ofNat (97 + M % 26) :: ans) = _
    rw [specDigits, ← hMQ]
    simp

/-- The embedded `checksum` is the string of the five base-26 digits of
`checksumCp`, most significant first, each as the letter `'a' + digit`. -/
theorem checksum_eq_digits (ledgerId addr : String) :
    checksum ledgerId addr = String.mk (specDigits 5 (checksumCp ledgerId addr)) := by
  have h := extractLoop_eq 5 0 (checksumCp ledgerId addr) []
  simp only [pow_zero, Nat.cast_one, div_one, Nat.div_one] at h
  rw [checksum, h]
  simp

/-- The source's single indexed loop computes the Horner fold together with
the two alternating running sums. -/
theorem checksumFold_eq (ds : List Nat) : ∀ (i sd sd0 sd1 : Nat),
    checksumFold ds i sd sd0 sd1 =
      ( ds.foldl (fun s x => (31 * s + x) % p3) sd,
        (if i % 2 = 0 then (alternate ds).1 else (alternate ds).2).foldl
          (fun s x => (s + x) % 11) sd0,
        (if i % 2 = 0 then (alternate ds).2 else (alternate ds).1).foldl
          (fun s x => (s + x) % 11) sd1 ) := by
  induction ds with
  | nil => intro i sd sd0 sd1; simp [checksumFold, alternate]
  | cons x l ih =>
    intro i sd sd0 sd1
    rcases Nat.mod_two_eq_zero_or_one i with h | h
    · have h1 : ¬ ((i + 1) % 2 = 0) := by omega
      rw [checksumFold, if_pos h, if_pos h, ih (i + 1), if_neg h1, if_neg h1,
        if_pos h, if_pos h]
      simp [alternate]
    · have h0 : ¬ (i % 2 = 0) := by omega
      have h1 : (i + 1) % 2 = 0 := by omega
      rw [checksumFold, if_neg h0, if_neg h0, ih (i + 1),
        if_pos h1, if_pos h1, if_neg h0, if_neg h0]
      simp [alternate]

/-- On even-length strings the source's two-characters-at-a-time `substring`
loop computes exactly the byte values. -/
theorem jsHexBytes_eq_specBytes : ∀ l : List Char, l.length % 2 = 0 →
    jsHexBytes l = specBytes l
  | [], _ => rfl
  | [_], h => by simp at h
  | c0 :: c1 :: r, h => by
    rw [jsHexBytes, specBytes, jsHexBytes_eq_specBytes r (by simp at h; omega)]

/-- C1: for every ledger id (a 2-hex-digit string) and every canonical
address string `shard.realm.number`, the source's `checksum` implements
exactly the specification's algorithm: `.` maps to 10 and each decimal digit
to its value; `sd0`/`sd1` are the running sums mod 11 at even/odd 0-indexed
positions; `sd` is the Horner fold with multiplier 31 mod `26^3` over all
digits; `sh` is the same fold mod `26^5` over the byte values of the ledger
id padded with twelve zero hex digits; `c` combines them with the canonical
string's length mod 5; `cp = (c * 1000003) % 26^5`; and the result is the
five base-26 digits of `cp` as letters `'a' + digit`, most significant
first. -/
theorem checksum_implements_spec (ledgerId addr : String)
    (hlen : ledgerId.length = 2)
    (hhex : ∀ c ∈ ledgerId.data, c.isDigit ∨ ('a' ≤ c ∧ c ≤ 'f') ∨ ('A' ≤ c ∧ c ≤ 'F'))
    (haddr : ∀ c ∈ addr.data, c.isDigit ∨ c = '.') :
    checksum ledgerId addr = specChecksum ledgerId addr := by
  have hdlen : (ledgerId ++ "000000000000").length = 14 := by
    rw [String.length_append, hlen]
    decide
  have hdata : (ledgerId ++ "000000000000").data.length = 14 := hdlen
  rw [checksum_eq_digits]
  simp only [specChecksum, checksumCp]
  rw [if_neg (by omega)]
  rw [jsHexBytes_eq_specBytes _ (by omega)]
  rw [checksumFold_eq]
  rw [if_pos (by norm_num), if_pos (by norm_num)]
  rfl

/-- C10: on its faithful domain (ledger id of hex digits, address of decimal
digits and dots — the inputs where JavaScript's `parseInt` returns numbers),
`checksum` returns a string of exactly 5 characters, each in `'a'..'z'`,
namely the base-26 digits of `cp = checksumCp < 26^5`, most significant
first — even though the extraction loop divides `cp` by 26 with non-integer
division and relies on the truncation in `String.fromCharCode`. -/
theorem checksum_extraction_digits (ledgerId addr : String)
    (hhex : ∀ c ∈ ledgerId.data, c.isDigit ∨ ('a' ≤ c ∧ c ≤ 'f') ∨ ('A' ≤ c ∧ c ≤ 'F'))
    (haddr : ∀ c ∈ addr.data, c.isDigit ∨ c = '.') :
    (checksum ledgerId addr).length = 5 ∧
    checksumCp ledgerId addr < p5 ∧
    (checksum ledgerId addr).data =
      [ Char.ofNat (97 + checksumCp ledgerId addr / 26 ^ 4 % 26),
        Char.ofNat (97 + checksumCp ledgerId addr / 26 ^ 3 % 26),
        Char.ofNat (97 + checksumCp ledgerId addr / 26 ^ 2 % 26),
        Char.ofNat (97 + checksumCp ledgerId addr / 26 % 26),
        Char.ofNat (97 + checksumCp ledgerId addr % 26) ] ∧
    ∀ c ∈ (checksum ledgerId addr).data, 'a' ≤ c ∧ c ≤ 'z' := by
  have hbound : checksumCp ledgerId addr < p5 := by
    unfold checksumCp
    exact Nat.mod_lt _ (by norm_num [p5])
  have hdigits : ∀ m : Nat, specDigits 5 m =
      [ Char.ofNat (97 + m / 26 ^ 4 % 26), Char.ofNat (97 + m / 26 ^ 3 % 26),
        Char.ofNat (97 + m / 26 ^ 2 % 26), Char.ofNat (97 + m / 26 % 26),
        Char.ofNat (97 + m % 26) ] := by
    intro m
    show specDigits 5 m = _
    simp only [specDigits, Nat.div_div_eq_div_mul, List.nil_append, List.cons_append,
      List.append_assoc]
    norm_num
  have hrange : ∀ (k m : Nat), ∀ c ∈ specDigits k m, 'a' ≤ c ∧ c ≤ 'z' := by
    intro k
    induction k with
    | zero => intro m c hc; simp [specDigits] at hc
    | succ k ih =>
      intro m c hc
      rw [specDigits] at hc
      rcases List.mem_append.mp hc with h | h
      · exact ih _ c h
      · have hr : c = Char.ofNat (97 + m % 26) := by simpa using h
        subst hr
        have h26 : m % 26 < 26 := Nat.mod_lt m (by norm_num)
        have hall : ∀ r, r < 26 → 'a' ≤ Char.ofNat (97 + r) ∧ Char.ofNat (97 + r) ≤ 'z' := by
          decide
        exact hall _ h26
  refine ⟨?_, hbound, ?_, ?_⟩
  · rw [checksum_eq_digits]
    show (specDigits 5 (checksumCp ledgerId addr)).length = 5
    exact specDigits_length 5 _
  · rw [checksum_eq_digits]
    show specDigits 5 (checksumCp ledgerId addr) = _
    exact hdigits _
  · rw [checksum_eq_digits]
    intro c hc
    exact hrange 5 _ c hc

/-! ## Character facts and parser correctness -/

theorem char_toNat_injective {c d : Char} (h : c.toNat = d.toNat) : c = d := by
  apply Char.ext
  apply UInt32.eq_of_toBitVec_eq
  apply BitVec.eq_of_toNat_eq
  exact h

theorem char_isDigit_iff {c : Char} : c.isDigit = true ↔ 48 ≤ c.toNat ∧ c.toNat ≤ 57 := by
  show (decide (48 ≤ c.toNat) && decide (c.toNat ≤ 57)) = true ↔ _
  simp

theorem char_between_isDigit {c : Char} (h1 : '1' ≤ c) (h9 : c ≤ '9') : c.isDigit = true := by
  have g1 : (49 : Nat) ≤ c.toNat := h1
  have g9 : c.toNat ≤ 57 := h9
  exact char_isDigit_iff.mpr (by omega)

theorem char_digit_ne_zero {c : Char} (hd : c.isDigit = true) (h0 : c ≠ '0') :
    '1' ≤ c ∧ c ≤ '9' := by
  have h := char_isDigit_iff.mp hd
  have hne : c.toNat ≠ 48 := fun he => h0 (char_toNat_injective (by simpa using he))
  exact ⟨show (49 : Nat) ≤ c.toNat by omega, show c.toNat ≤ (57 : Nat) by omega⟩

theorem takeWhile_all_append {p : Char → Bool} : ∀ (ds r : List Char),
    (∀ c ∈ ds, p c = true) → (∀ c, r.head? = some c → ¬ p c = true) →
    (ds ++ r).takeWhile p = ds ∧ (ds ++ r).dropWhile p = r := by
  intro ds
  induction ds with
  | nil =>
    intro r _ hr
    cases r with
    | nil => simp
    | cons c r2 =>
      have : ¬ p c = true := hr c rfl
      simp [List.takeWhile_cons, List.dropWhile_cons, this]
  | cons d ds ih =>
    intro r hds hr
    have hd : p d = true := hds d (by simp)
    have := ih r (fun c hc => hds c (by simp [hc])) hr
    simp [List.takeWhile_cons, List.dropWhile_cons, hd, this.1, this.2]

theorem parseNum_sound {l n r : List Char} (h : parseNum l = some (n, r)) :
    l = n ++ r ∧ numToken n = true := by
  cases l with
  | nil => simp [parseNum] at h
  | cons c rest =>
    rw [parseNum] at h
    by_cases h0 : c = '0'
    · rw [if_pos h0] at h
      simp only [Option.some.injEq, Prod.mk.injEq] at h
      obtain ⟨h1, h2⟩ := h
      subst h1
      subst h2
      subst h0
      exact ⟨rfl, by decide⟩
    · rw [if_neg h0] at h
      by_cases h19 : '1' ≤ c ∧ c ≤ '9'
      · rw [if_pos h19] at h
        simp only [Option.some.injEq, Prod.mk.injEq] at h
        obtain ⟨h1, h2⟩ := h
        subst h1
        subst h2
        constructor
        · rw [List.cons_append, List.takeWhile_append_dropWhile]
        · have hcd : c.isDigit = true := char_between_isDigit h19.1 h19.2
          simp only [numToken, Bool.and_eq_true, Bool.or_eq_true, decide_eq_true_iff,
            List.all_eq_true]
          refine ⟨⟨by simp, ?_⟩, Or.inr (by simp [h0])⟩
          intro x hx
          rcases List.mem_cons.mp hx with rfl | hx2
          · exact hcd
          · exact List.mem_takeWhile_imp hx2
      · rw [if_neg h19] at h
        exact absurd h (by simp)

theorem parseNum_complete {n r : List Char} (hn : numToken n = true)
    (hr : ∀ c, r.head? = some c → ¬ c.isDigit = true) :
    parseNum (n ++ r) = some (n, r) := by
  simp only [numToken, Bool.and_eq_true, Bool.or_eq_true, decide_eq_true_iff,
    List.all_eq_true] at hn
  obtain ⟨⟨hne, hdig⟩, hz⟩ := hn
  cases n with
  | nil => exact absurd rfl hne
  | cons c ds =>
    rcases hz with h0 | hhead
    · have hc : c = '0' := by injection h0
      have hds : ds = [] := by injection h0
      subst hc
      subst hds
      rw [List.cons_append, parseNum, if_pos rfl]
      simp
    · have hc0 : c ≠ '0' := by
        intro he
        exact hhead (by simp [he])
      have hcd : c.isDigit = true := hdig c (by simp)
      have h19 := char_digit_ne_zero hcd hc0
      have htw := takeWhile_all_append ds r (fun x hx => hdig x (by simp [hx])) hr
      rw [List.cons_append, parseNum, if_neg hc0, if_pos h19, htw.1, htw.2]

theorem parseSuffix_sound {l : List Char} {suf : Option (List Char)}
    (h : parseSuffix l = some suf) :
    (suf = none ∧ l = []) ∨ (∃ t, suf = some t ∧ l = '-' :: t ∧ checksumToken t = true) := by
  cases l with
  | nil =>
    left
    have hs : (some (none : Option (List Char))) = some suf := h
    simp only [Option.some.injEq] at hs
    exact ⟨hs.symm, rfl⟩
  | cons c cs =>
    rw [parseSuffix] at h
    by_cases hcm : c = '-'
    · rw [if_pos hcm] at h
      by_cases hc : cs.length = 5 ∧ cs.all (fun x => decide ('a' ≤ x) && decide (x ≤ 'z')) = true
      · rw [if_pos hc] at h
        simp only [Option.some.injEq] at h
        right
        refine ⟨cs, h.symm, by rw [hcm], ?_⟩
        simp only [checksumToken, Bool.and_eq_true, decide_eq_true_iff]
        exact ⟨hc.1, hc.2⟩
      · rw [if_neg hc] at h
        exact absurd h (by simp)
    · rw [if_neg hcm] at h
      exact absurd h (by simp)

theorem parseSuffix_complete_none : parseSuffix [] = some none := rfl

theorem parseSuffix_complete_some {t : List Char} (h : checksumToken t = true) :
    parseSuffix ('-' :: t) = some (some t) := by
  simp only [checksumToken, Bool.and_eq_true, decide_eq_true_iff] at h
  rw [parseSuffix, if_pos rfl, if_pos (by simpa using h)]

theorem expectDot_dot (r : List Char) : expectDot ('.' :: r) = some r := by
  rw [expectDot, if_pos rfl]

theorem expectDot_sound {l r : List Char} (h : expectDot l = some r) : l = '.' :: r := by
  cases l with
  | nil => simp [expectDot] at h
  | cons c cs =>
    rw [expectDot] at h
    by_cases hc : c = '.'
    · rw [if_pos hc] at h
      simp only [Option.some.injEq] at h
      rw [hc, h]
    · rw [if_neg hc] at h
      exact absurd h (by simp)

theorem parseAddr_sound {s n1 n2 n3 : List Char} {suf : Option (List Char)}
    (h : parseAddr s = some (n1, n2, n3, suf)) :
    s = n1 ++ '.' :: (n2 ++ '.' :: (n3 ++ sufRest suf)) ∧
    numToken n1 = true ∧ numToken n2 = true ∧ numToken n3 = true ∧
    (∀ t, suf = some t → checksumToken t = true) := by
  unfold parseAddr at h
  split at h
  · exact absurd h (by simp)
  rename_i m1 r1 hp1
  split at h
  · exact absurd h (by simp)
  rename_i r2 hdot1
  split at h
  · exact absurd h (by simp)
  rename_i m2 r3 hp2
  split at h
  · exact absurd h (by simp)
  rename_i r4 hdot2
  split at h
  · exact absurd h (by simp)
  rename_i m3 r5 hp3
  split at h
  · exact absurd h (by simp)
  rename_i suf' hsuf
  simp only [Option.some.injEq, Prod.mk.injEq] at h
  obtain ⟨hm1, hm2, hm3, hm4⟩ := h
  subst hm1
  subst hm2
  subst hm3
  subst hm4
  obtain ⟨hs1, ht1⟩ := parseNum_sound hp1
  have hr1 := expectDot_sound hdot1
  obtain ⟨hs2, htk2⟩ := parseNum_sound hp2
  have hr3 := expectDot_sound hdot2
  obtain ⟨hs3, htk3⟩ := parseNum_sound hp3
  have hrest : r5 = sufRest suf' ∧ (∀ t, suf' = some t → checksumToken t = true) := by
    rcases parseSuffix_sound hsuf with ⟨hn, hr5⟩ | ⟨t, hsome, hr5, htok⟩
    · subst hn
      refine ⟨hr5, ?_⟩
      intro t ht
      exact absurd ht (by simp)
    · subst hsome
      refine ⟨hr5, ?_⟩
      intro t2 hteq
      have heq : t = t2 := Option.some.inj hteq
      rw [← heq]
      exact htok
  refine ⟨?_, ht1, htk2, htk3, hrest.2⟩
  rw [hs1, hr1, hs2, hr3, hs3, hrest.1]

theorem parseAddr_complete {n1 n2 n3 : List Char} {suf : Option (List Char)}
    (h1 : numToken n1 = true) (h2 : numToken n2 = true) (h3 : numToken n3 = true)
    (hsuf : ∀ t, suf = some t → checksumToken t = true) :
    parseAddr (n1 ++ '.' :: (n2 ++ '.' :: (n3 ++ sufRest suf))) = some (n1, n2, n3, suf) := by
  have hdotdigit : ∀ c : Char, ('.' :: (n2 ++ '.' :: (n3 ++ sufRest suf))).head? = some c →
      ¬ c.isDigit = true := by
    intro c hc
    simp only [List.head?] at hc
    have : c = '.' := by injection hc.symm
    subst this
    decide
  have hdotdigit2 : ∀ c : Char, ('.' :: (n3 ++ sufRest suf)).head? = some c →
      ¬ c.isDigit = true := by
    intro c hc
    simp only [List.head?] at hc
    have : c = '.' := by injection hc.symm
    subst this
    decide
  have hrestdigit : ∀ c : Char, (sufRest suf).head? = some c → ¬ c.isDigit = true := by
    intro c hc
    cases suf with
    | none => simp [sufRest] at hc
    | some t =>
      simp only [sufRest, List.head?] at hc
      have : c = '-' := by injection hc.symm
      subst this
      decide
  unfold parseAddr
  cases suf with
  | none =>
    simp only [sufRest] at hdotdigit hdotdigit2 hrestdigit ⊢
    simp only [parseNum_complete h1 hdotdigit, expectDot_dot,
      parseNum_complete h2 hdotdigit2, parseNum_complete h3 hrestdigit,
      parseSuffix_complete_none]
  | some t =>
    simp only [sufRest] at hdotdigit hdotdigit2 hrestdigit ⊢
    simp only [parseNum_complete h1 hdotdigit, expectDot_dot,
      parseNum_complete h2 hdotdigit2, parseNum_complete h3 hrestdigit,
      parseSuffix_complete_some (hsuf t rfl)]

theorem specWellFormed_iff_parse (s : String) :
    specWellFormed s ↔ (parseAddr s.data).isSome := by
  constructor
  · rintro ⟨n1, n2, n3, rest, h1, h2, h3, hrest, hs⟩
    have : ∃ suf, rest = sufRest suf ∧ (∀ t, suf = some t → checksumToken t = true) := by
      rcases hrest with rfl | ⟨t, htok, rfl⟩
      · exact ⟨none, rfl, by intro t ht; simp at ht⟩
      · refine ⟨some t, rfl, ?_⟩
        intro t2 ht2
        have : t2 = t := by injection ht2.symm
        rw [this]
        exact htok
    obtain ⟨suf, rfl, hsuf⟩ := this
    rw [hs, parseAddr_complete h1 h2 h3 hsuf]
    rfl
  · intro h
    cases hp : parseAddr s.data with
    | none => rw [hp] at h; simp at h
    | some v =>
      obtain ⟨n1, n2, n3, suf⟩ := v
      obtain ⟨hs, h1, h2, h3, hsuf⟩ := parseAddr_sound hp
      refine ⟨n1, n2, n3, sufRest suf, h1, h2, h3, ?_, hs⟩
      cases suf with
      | none => exact Or.inl rfl
      | some t => exact Or.inr ⟨t, hsuf t rfl, rfl⟩

/-- C2: `toChecksumAddress` rejects (returns the `{isValid:false,status:0}`
record) exactly the strings not of the form `shard.realm.number` with
non-negative integer components without leading zeros and an optional
`-` + 5-lowercase-letter suffix; on accepted strings the outcome is status 2
(`NoChecksumGiven`, usable) when no suffix was given, status 3 (`Valid`,
usable) when the suffix equals the computed checksum, and status 1
(`Invalid`, rejected) when it differs; the checksum is computed against the
network codes mainnet `00`, testnet `01`, previewnet `02`, devnet `01`. -/
theorem toChecksumAddress_correct (chainId : HederaChainId) (s : String) :
    (toChecksumAddress chainId s = .invalid ↔ ¬ specWellFormed s) ∧
    (∀ r, toChecksumAddress chainId s = .valid r →
      r.correctChecksum = checksum (ledgerIdMap chainId) r.noChecksumFormat ∧
      (r.givenChecksum = none → r.status = 2 ∧ r.isValid = true) ∧
      (∀ g, r.givenChecksum = some g →
        (g = r.correctChecksum → r.status = 3 ∧ r.isValid = true) ∧
        (g ≠ r.correctChecksum → r.status = 1 ∧ r.isValid = false))) ∧
    ledgerIdMap .mainnet = "00" ∧ ledgerIdMap .testnet = "01" ∧
    ledgerIdMap .previewnet = "02" ∧ ledgerIdMap .devnet = "01" := by
  refine ⟨?_, ?_, rfl, rfl, rfl, rfl⟩
  · rw [specWellFormed_iff_parse]
    cases hp : parseAddr s.data with
    | none =>
      simp only [toChecksumAddress, hp]
      simp
    | some v =>
      obtain ⟨n1, n2, n3, suf⟩ := v
      simp only [toChecksumAddress, hp]
      simp
  · intro r hr
    cases hp : parseAddr s.data with
    | none =>
      rw [toChecksumAddress, hp] at hr
      exact absurd hr (by simp)
    | some v =>
      obtain ⟨n1, n2, n3, suf⟩ := v
      rw [toChecksumAddress, hp] at hr
      simp only [ChecksumAddressResult.valid.injEq] at hr
      subst hr
      refine ⟨rfl, ?_, ?_⟩
      · intro hg
        cases suf with
        | none => exact ⟨rfl, rfl⟩
        | some t => simp at hg
      · intro g hg
        cases suf with
        | none => exact absurd hg (by simp)
        | some t =>
          have hgt : g = String.mk t := by
            have hsome : some (String.mk t) = some g := hg
            exact (Option.some.inj hsome).symm
          subst hgt
          constructor
          · intro he
            have hcond : checksum (ledgerIdMap chainId)
                (Nat.repr (natOfDigits n1) ++ "." ++ Nat.repr (natOfDigits n2) ++ "." ++
                  Nat.repr (natOfDigits n3)) = String.mk t := he.symm
            constructor
            · show (if checksum (ledgerIdMap chainId)
                  (Nat.repr (natOfDigits n1) ++ "." ++ Nat.repr (natOfDigits n2) ++ "." ++
                    Nat.repr (natOfDigits n3)) = String.mk t then (3 : Nat) else 1) = 3
              rw [if_pos hcond]
            · show ((if checksum (ledgerIdMap chainId)
                  (Nat.repr (natOfDigits n1) ++ "." ++ Nat.repr (natOfDigits n2) ++ "." ++
                    Nat.repr (natOfDigits n3)) = String.mk t then (3 : Nat) else 1) != 1) = true
              rw [if_pos hcond]
              rfl
          · intro hne
            have hcond : ¬ (checksum (ledgerIdMap chainId)
                (Nat.repr (natOfDigits n1) ++ "." ++ Nat.repr (natOfDigits n2) ++ "." ++
                  Nat.repr (natOfDigits n3)) = String.mk t) := fun he => hne he.symm
            constructor
            · show (if checksum (ledgerIdMap chainId)
                  (Nat.repr (natOfDigits n1) ++ "." ++ Nat.repr (natOfDigits n2) ++ "." ++
                    Nat.repr (natOfDigits n3)) = String.mk t then (3 : Nat) else 1) = 1
              rw [if_neg hcond]
            · show ((if checksum (ledgerIdMap chainId)
                  (Nat.repr (natOfDigits n1) ++ "." ++ Nat.repr (natOfDigits n2) ++ "." ++
                    Nat.repr (natOfDigits n3)) = String.mk t then (3 : Nat) else 1) != 1) = false
              rw [if_neg hcond]
              rfl

theorem endpointParse_gives_parseAddr {s n1 n2 n3 : List Char}
    (h : endpointParse s = some (n1, n2, n3)) :
    parseAddr s = some (n1, n2, n3, none) := by
  unfold endpointParse at h
  unfold parseAddr
  split at h
  · exact absurd h (by simp)
  rename_i m1 r1 hp1
  split at h
  · exact absurd h (by simp)
  rename_i r2 hdot1
  split at h
  · exact absurd h (by simp)
  rename_i m2 r3 hp2
  split at h
  · exact absurd h (by simp)
  rename_i r4 hdot2
  split at h
  · exact absurd h (by simp)
  rename_i m3 r5 hp3
  split at h
  · rename_i hr5
    simp only [Option.some.injEq, Prod.mk.injEq] at h
    obtain ⟨hm1, hm2, hm3⟩ := h
    subst hm1
    subst hm2
    subst hm3
    simp only [hr5, parseSuffix_complete_none]
  · exact absurd h (by simp)

/-- C8: every `walletAddress` accepted by the zod body validation of the four
endpoints (which matches `shard.realm.number` with no suffix group) is
accepted by `toChecksumAddress` with status 2 (`NoChecksumGiven`) and
`isValid = true`: the "Invalid wallet address" BAD_REQUEST branch of every
handler is unreachable, and no address carrying a checksum suffix — hence no
`Invalid`-checksum outcome — can reach a handler through the public
interface. -/
theorem endpoint_body_always_usable (chainId : HederaChainId) (s : String)
    (h : endpointAccepts s = true) :
    ∃ r, toChecksumAddress chainId s = .valid r ∧ r.status = 2 ∧ r.isValid = true ∧
      r.givenChecksum = none := by
  rw [endpointAccepts] at h
  cases hp : endpointParse s.data with
  | none => rw [hp] at h; simp at h
  | some v =>
    obtain ⟨n1, n2, n3⟩ := v
    have hpa := endpointParse_gives_parseAddr hp
    simp only [toChecksumAddress, hpa]
    exact ⟨_, rfl, rfl, rfl, rfl⟩

theorem b64Val_b64Char : ∀ v : Nat, v < 64 → b64Val (b64Char v) = some v := by decide

theorem b64Char_ne_eq : ∀ v : Nat, v < 64 → ¬ (b64Char v = '=') := by decide

/-- Standard base64 decode inverts encode on byte lists. -/
theorem b64_roundtrip : ∀ (s : List Nat), (∀ b ∈ s, b < 256) →
    b64Decode (b64Encode s) = some s
  | [], _ => by decide
  | [a], h => by
    have ha : a < 256 := h a (by simp)
    have h1 := b64Val_b64Char (a / 4) (by omega)
    have h2 := b64Val_b64Char (a % 4 * 16) (by omega)
    show b64Decode (b64Char (a / 4) :: b64Char (a % 4 * 16) :: '=' :: '=' :: []) = some [a]
    simp [b64Decode, h1, h2]
    omega
  | [a, b], h => by
    have ha : a < 256 := h a (by simp)
    have hb : b < 256 := h b (by simp)
    have h1 := b64Val_b64Char (a / 4) (by omega)
    have h2 := b64Val_b64Char (a % 4 * 16 + b / 16) (by omega)
    have h3 := b64Val_b64Char (b % 16 * 4) (by omega)
    have h3ne := b64Char_ne_eq (b % 16 * 4) (by omega)
    show b64Decode (b64Char (a / 4) :: b64Char (a % 4 * 16 + b / 16) ::
      b64Char (b % 16 * 4) :: '=' :: []) = some [a, b]
    simp [b64Decode, h1, h2, h3, h3ne]
    omega
  | a :: b :: c :: rest, h => by
    have ha : a < 256 := h a (by simp)
    have hb : b < 256 := h b (by simp)
    have hc : c < 256 := h c (by simp)
    have h1 := b64Val_b64Char (a / 4) (by omega)
    have h2 := b64Val_b64Char (a % 4 * 16 + b / 16) (by omega)
    have h3 := b64Val_b64Char (b % 16 * 4 + c / 64) (by omega)
    have h4 := b64Val_b64Char (c % 64) (by omega)
    have h3ne := b64Char_ne_eq (b % 16 * 4 + c / 64) (by omega)
    have h4ne := b64Char_ne_eq (c % 64) (by omega)
    have hrec := b64_roundtrip rest (fun x hx => h x (by simp [hx]))
    show b64Decode (b64Char (a / 4) :: b64Char (a % 4 * 16 + b / 16) ::
      b64Char (b % 16 * 4 + c / 64) :: b64Char (c % 64) :: b64Encode rest) = some (a :: b :: c :: rest)
    simp [b64Decode, h1, h2, h3, h4, h3ne, h4ne, hrec]
    omega

/-- C7: for every `Uint8Array` (byte list), decoding the encoded signature
returns the original bytes, byte for byte, in both the Buffer-based (Node)
and the `btoa`/`atob`-based (browser) branches of `signatureToBase64` and
`base64ToSignature`. -/
theorem signature_base64_roundtrip (s : List Nat) (h : ∀ b ∈ s, b < 256) :
    base64ToSignatureNode (signatureToBase64Node s) = some s ∧
    signatureToBase64Browser s = some (signatureToBase64Node s) ∧
    base64ToSignatureBrowser (signatureToBase64Node s) = some s := by
  have hrt : b64Decode (b64Encode s) = some s := b64_roundtrip s h
  have hmapmod : ∀ (m : Nat) (l : List Nat), (∀ b ∈ l, b < m) →
      l.map (fun b => b % m) = l := by
    intro m l
    induction l with
    | nil => intro _; rfl
    | cons x xs ih =>
      intro hl
      have hx : x < m := hl x (by simp)
      simp only [List.map_cons, Nat.mod_eq_of_lt hx]
      rw [ih (fun b hb => hl b (by simp [hb]))]
  refine ⟨?_, ?_, ?_⟩
  · show b64Decode (String.mk (b64Encode s)).data = some s
    exact hrt
  · rw [signatureToBase64Browser,
      hmapmod 65536 s (fun b hb => by have := h b hb; omega), jsBtoa,
      if_pos (by simp only [List.all_eq_true, decide_eq_true_iff]; exact h)]
    rfl
  · have hdecode : jsAtob (signatureToBase64Node s) = some s := by
      show b64Decode (String.mk (b64Encode s)).data = some s
      exact hrt
    rw [base64ToSignatureBrowser, hdecode]
    show some (s.map (fun c => c % 256)) = some s
    rw [hmapmod 256 s h]

/-! ## Inversion lemmas for the verify handler -/

theorem verifyGate_ok {opts : SiwhOptions} {body : VerifyBody} {cr : ValidChecksumResult}
    {key : String} (h : verifyGate opts body = .ok (cr, key)) :
    endpointAccepts body.walletAddress = true ∧
    toChecksumAddress body.chainId body.walletAddress = .valid cr ∧
    key = "siwh:" ++ cr.withChecksumFormat ++ ":" ++ chainIdStr body.chainId := by
  unfold verifyGate at h
  split at h
  · rename_i hacc
    split at h
    · exact absurd h (by simp)
    · rename_i cr' hcr
      split at h
      · exact absurd h (by simp)
      · rename_i hmail
        simp only [Except.ok.injEq, Prod.mk.injEq] at h
        obtain ⟨h1, h2⟩ := h
        subst h1
        subst h2
        exact ⟨hacc, hcr, rfl⟩
  · exact absurd h (by simp)

theorem verifyGate_ok_of (opts : SiwhOptions) (body : VerifyBody) {cr : ValidChecksumResult}
    (hacc : endpointAccepts body.walletAddress = true)
    (hcr : toChecksumAddress body.chainId body.walletAddress = .valid cr)
    (hmail : ¬ (¬ (opts.anonymous.getD true) ∧ body.email = none)) :
    verifyGate opts body
      = .ok (cr, "siwh:" ++ cr.withChecksumFormat ++ ":" ++ chainIdStr body.chainId) := by
  unfold verifyGate
  rw [if_pos hacc]
  simp only [hcr]
  rw [if_neg hmail]

theorem consumeCheck_ok {db : DB} {now : Int} {key : String} {v : VerificationRecord}
    (h : consumeCheck db now key = .ok v) :
    findVerificationValue db key = some v ∧ ¬ now > v.expiresAt := by
  unfold consumeCheck at h
  split at h
  · exact absurd h (by simp)
  · rename_i v' hfind
    split at h
    · exact absurd h (by simp)
    · rename_i hexp
      have hv : v' = v := by simpa using h
      subst hv
      exact ⟨hfind, hexp⟩

theorem findVerificationValue_mem {db : DB} {key : String} {v : VerificationRecord}
    (h : findVerificationValue db key = some v) :
    v ∈ db.verifications ∧ v.identifier = key := by
  unfold findVerificationValue at h
  refine ⟨List.mem_of_find?_eq_some h, ?_⟩
  have := List.find?_some h
  simpa using this

theorem findVerificationValue_of_mem {db : DB} {key : String} {v : VerificationRecord}
    (huniq : ∀ v1 ∈ db.verifications, ∀ v2 ∈ db.verifications,
      v1.identifier = v2.identifier → v1 = v2)
    (hv : v ∈ db.verifications) (hid : v.identifier = key) :
    findVerificationValue db key = some v := by
  have hsome : (db.verifications.find? (fun w => w.identifier == key)).isSome := by
    rw [List.find?_isSome]
    exact ⟨v, hv, by simpa using hid⟩
  obtain ⟨w, hw⟩ := Option.isSome_iff_exists.mp hsome
  obtain ⟨hwmem, hwid⟩ := findVerificationValue_mem hw
  have : w = v := huniq w hwmem v hv (by rw [hwid, hid])
  rw [← this]
  exact hw

theorem finishVerify_ghost (opts : SiwhOptions) (tok : Option String) (db1 : DB)
    (body : VerifyBody) (wa : String) (args : VerifyMessageArgs) (key : String) :
    (finishVerify opts tok db1 body wa args key).verifierArgs = some args ∧
    (finishVerify opts tok db1 body wa args key).nonceKey = some key := by
  unfold finishVerify
  constructor
  all_goals
    dsimp only
    repeat' split
    all_goals rfl

theorem finishVerify_verifications (opts : SiwhOptions) (tok : Option String) (db1 : DB)
    (body : VerifyBody) (wa : String) (args : VerifyMessageArgs) (key : String) :
    (finishVerify opts tok db1 body wa args key).db.verifications = db1.verifications := by
  unfold finishVerify createWalletAndAccount
  dsimp only
  repeat' split
  all_goals rfl

theorem verify_success_inv {opts : SiwhOptions} {verifier : VerifyMessageArgs → Bool}
    {now : Int} {tok : Option String} {db : DB} {body : VerifyBody} {ok : VerifyOk}
    (h : (verifySiwhMessage opts verifier now tok db body).result = .success ok) :
    ∃ cr key v, verifyGate opts body = .ok (cr, key) ∧
      consumeCheck db now key = .ok v ∧
      verifier (mkVerifierArgs opts body.message body.signature body.walletAddress
        body.chainId v.value) = true ∧
      verifySiwhMessage opts verifier now tok db body
        = finishVerify opts tok (deleteVerificationValue db v.id) body
            cr.withChecksumFormat
            (mkVerifierArgs opts body.message body.signature body.walletAddress
              body.chainId v.value) key := by
  cases hgate : verifyGate opts body with
  | error e => simp [verifySiwhMessage, hgate] at h
  | ok p =>
    obtain ⟨cr, key⟩ := p
    cases hcons : consumeCheck db now key with
    | error e => simp [verifySiwhMessage, hgate, hcons] at h
    | ok v =>
      by_cases hver : verifier (mkVerifierArgs opts body.message body.signature
          body.walletAddress body.chainId v.value) = true
      · refine ⟨cr, key, v, rfl, hcons, hver, ?_⟩
        simp only [verifySiwhMessage, hgate, hcons]
        rw [if_pos hver]
      · have hverf : verifier (mkVerifierArgs opts body.message body.signature
            body.walletAddress body.chainId v.value) = false := by
          revert hver
          cases verifier (mkVerifierArgs opts body.message body.signature
            body.walletAddress body.chainId v.value) <;> simp
        simp [verifySiwhMessage, hgate, hcons, hverf] at h

/-! ## Claim C3: nonce single-use -/

/-- C3: for every (address, chainId) key, a successful verify has deleted
the stored nonce under the consulted key before returning, so a second
verify for the same key — same request body, any verifier, time or session
outcome — finds no live nonce and fails with the nonce-not-found-or-expired
error; and a stored nonce whose `expiresAt` lies strictly in the past is
likewise treated as absent: the request fails the same way with the state
unchanged. The uniqueness hypothesis is the spec's "unique per key while
live" invariant of the challenge store. -/
theorem nonce_single_use (opts : SiwhOptions) (verifier : VerifyMessageArgs → Bool)
    (now : Int) (tok : Option String) (db : DB) (body : VerifyBody)
    (huniq : ∀ v1 ∈ db.verifications, ∀ v2 ∈ db.verifications,
      v1.identifier = v2.identifier → v1 = v2) :
    (∀ ok, (verifySiwhMessage opts verifier now tok db body).result = .success ok →
      (∀ k, (verifySiwhMessage opts verifier now tok db body).nonceKey = some k →
        ∀ w ∈ (verifySiwhMessage opts verifier now tok db body).db.verifications,
          w.identifier ≠ k) ∧
      (∀ (verifier2 : VerifyMessageArgs → Bool) (now2 : Int) (tok2 : Option String),
        (verifySiwhMessage opts verifier2 now2 tok2
          (verifySiwhMessage opts verifier now tok db body).db body).result
          = .failure .nonceNotFoundOrExpired)) ∧
    (∀ cr v, endpointAccepts body.walletAddress = true →
      toChecksumAddress body.chainId body.walletAddress = .valid cr →
      ¬ (¬ (opts.anonymous.getD true) ∧ body.email = none) →
      v ∈ db.verifications →
      v.identifier = "siwh:" ++ cr.withChecksumFormat ++ ":" ++ chainIdStr body.chainId →
      v.expiresAt < now →
      verifySiwhMessage opts verifier now tok db body
        = ⟨.failure .nonceNotFoundOrExpired, db, none,
            some ("siwh:" ++ cr.withChecksumFormat ++ ":" ++ chainIdStr body.chainId)⟩) := by
  constructor
  · intro ok hok
    obtain ⟨cr, key, v, hgate, hcons, hver, hchar⟩ := verify_success_inv hok
    obtain ⟨hfind, hexp⟩ := consumeCheck_ok hcons
    obtain ⟨hvmem, hvid⟩ := findVerificationValue_mem hfind
    have hnk : (verifySiwhMessage opts verifier now tok db body).nonceKey = some key := by
      rw [hchar]
      exact (finishVerify_ghost _ _ _ _ _ _ _).2
    have hverifs : (verifySiwhMessage opts verifier now tok db body).db.verifications
        = db.verifications.filter (fun w => w.id != v.id) := by
      rw [hchar, finishVerify_verifications]
      rfl
    have hclean : ∀ w ∈ (verifySiwhMessage opts verifier now tok db body).db.verifications,
        w.identifier ≠ key := by
      intro w hw hcontra
      rw [hverifs] at hw
      obtain ⟨hwmem, hwid⟩ := List.mem_filter.mp hw
      have hwv : w = v := huniq w hwmem v hvmem (by rw [hcontra, hvid])
      rw [hwv] at hwid
      simp at hwid
    constructor
    · intro k hk
      have hkk : k = key := by
        rw [hnk] at hk
        exact (Option.some.inj hk).symm
      rw [hkk]
      exact hclean
    · intro verifier2 now2 tok2
      obtain ⟨db2, hdb2⟩ : ∃ d, (verifySiwhMessage opts verifier now tok db body).db = d :=
        ⟨_, rfl⟩
      have hfind2 : findVerificationValue db2 key = none := by
        unfold findVerificationValue
        rw [List.find?_eq_none]
        intro w hw hb
        exact hclean w (by rw [hdb2]; exact hw) (by simpa using hb)
      have hcons2 : consumeCheck db2 now2 key = .error .nonceNotFoundOrExpired := by
        unfold consumeCheck
        rw [hfind2]
      rw [hdb2]
      simp only [verifySiwhMessage, hgate, hcons2]
  · intro cr v hacc hcr hmail hvmem hvid hexp
    have hgate := verifyGate_ok_of opts body hacc hcr hmail
    have hfind := findVerificationValue_of_mem huniq hvmem hvid
    have hcons : consumeCheck db now
        ("siwh:" ++ cr.withChecksumFormat ++ ":" ++ chainIdStr body.chainId)
        = .error .nonceNotFoundOrExpired := by
      unfold consumeCheck
      simp only [hfind]
      rw [if_pos (by omega)]
    simp only [verifySiwhMessage, hgate, hcons]

/-! ## Claim C4: failed verification preserves the nonce -/

/-- C4: the nonce is deleted only after the injected `verifyMessage`
capability returns true. Whenever it returns false (on exactly the
arguments the handler passes), verify fails with the signature error and
returns the database unchanged — the stored nonce survives — and a
subsequent verify on that same state whose verifier accepts, made while the
nonce is still unexpired, succeeds (here: when the exact wallet record and
its owner exist and the session store yields a token). -/
theorem failed_verification_preserves_nonce (opts : SiwhOptions)
    (verifier : VerifyMessageArgs → Bool) (now : Int) (tok : Option String)
    (db : DB) (body : VerifyBody) (cr : ValidChecksumResult) (key : String)
    (v : VerificationRecord)
    (hgate : verifyGate opts body = .ok (cr, key))
    (hcons : consumeCheck db now key = .ok v)
    (hver : verifier (mkVerifierArgs opts body.message body.signature body.walletAddress
      body.chainId v.value) = false) :
    verifySiwhMessage opts verifier now tok db body
      = ⟨.failure .signatureVerificationFailed, db,
          some (mkVerifierArgs opts body.message body.signature body.walletAddress
            body.chainId v.value), some key⟩ ∧
    (∀ (verifier2 : VerifyMessageArgs → Bool) (now2 : Int) (w : WalletRecord)
        (u : UserRecord) (t : String),
      verifier2 (mkVerifierArgs opts body.message body.signature body.walletAddress
        body.chainId v.value) = true →
      ¬ now2 > v.expiresAt →
      findWallet (deleteVerificationValue db v.id) cr.withChecksumFormat body.chainId
        = some w →
      findUserById (deleteVerificationValue db v.id) w.userId = some u →
      (verifySiwhMessage opts verifier2 now2 (some t) db body).result
        = .success { token := some t, user := u }) := by
  constructor
  · simp only [verifySiwhMessage, hgate, hcons]
    rw [if_neg (by simp [hver])]
  · intro verifier2 now2 w u t hver2 hexp2 hw hu
    obtain ⟨hfind, _⟩ := consumeCheck_ok hcons
    have hcons2 : consumeCheck db now2 key = .ok v := by
      unfold consumeCheck
      simp only [hfind]
      rw [if_neg hexp2]
    simp only [verifySiwhMessage, hgate, hcons2]
    rw [if_pos hver2]
    unfold finishVerify resolveUser
    dsimp only
    simp only [hw, hu]

/-! ## Claim C5: cross-chain identity resolution -/

/-- C5, amended: cross-chain resolution matches on the stored canonical
string. An identity holding a wallet credential on chain `X` whose stored
address equals the canonical checksummed form the incoming `(A, Y)` request
computes — which, for records this plugin created itself, happens exactly
when `X` and `Y` share a ledger id, as testnet and devnet do — with no
credential for that form on `Y`, is resolved by a successful verify: the
handler looks up the exact `(address, chainId)` pair first, then the
address across all chains, signs the caller in as that same identity, and
creates a second wallet credential for `(A, Y)` with `isPrimary = false`
together with a matching `siwh` account record. (As claimed — with the
mainnet/testnet canonical forms differing — the property fails; see the
counterexample.) -/
theorem cross_chain_resolution (opts : SiwhOptions) (verifier : VerifyMessageArgs → Bool)
    (now : Int) (tok : Option String) (db : DB) (body : VerifyBody)
    (cr : ValidChecksumResult) (X : HederaChainId) (u : Nat) (ok : VerifyOk)
    (hcr : toChecksumAddress body.chainId body.walletAddress = .valid cr)
    (hX : ∃ w ∈ db.wallets, w.address = cr.withChecksumFormat ∧ w.chainId = X ∧ w.userId = u)
    (hconsist : ∀ w ∈ db.wallets, w.address = cr.withChecksumFormat → w.userId = u)
    (hnoY : ∀ w ∈ db.wallets, ¬ (w.address = cr.withChecksumFormat ∧ w.chainId = body.chainId))
    (huser : ∃ usr ∈ db.users, usr.id = u)
    (hok : (verifySiwhMessage opts verifier now tok db body).result = .success ok) :
    ok.user.id = u ∧
    (∃ w ∈ (verifySiwhMessage opts verifier now tok db body).db.wallets,
      w.address = cr.withChecksumFormat ∧ w.chainId = body.chainId ∧ w.userId = u ∧
      w.isPrimary = false) ∧
    (∃ a ∈ (verifySiwhMessage opts verifier now tok db body).db.accounts,
      a.userId = u ∧ a.providerId = "siwh" ∧
      a.accountId = cr.withChecksumFormat ++ ":" ++ chainIdStr body.chainId) := by
  obtain ⟨cr2, key, v, hgate, hcons, hver, hchar⟩ := verify_success_inv hok
  obtain ⟨hacc, hcr2, hkey⟩ := verifyGate_ok hgate
  have hceq : cr2 = cr := by
    rw [hcr] at hcr2
    exact (ChecksumAddressResult.valid.inj hcr2).symm
  subst hceq
  obtain ⟨wX, hwXmem, hwXaddr, hwXchain, hwXuid⟩ := hX
  obtain ⟨usr0, husr0mem, husr0id⟩ := huser
  have hdb1w : (deleteVerificationValue db v.id).wallets = db.wallets := rfl
  have hdb1u : (deleteVerificationValue db v.id).users = db.users := rfl
  have hfw : findWallet (deleteVerificationValue db v.id) cr2.withChecksumFormat
      body.chainId = none := by
    unfold findWallet
    rw [List.find?_eq_none]
    intro w hw hb
    simp only [Bool.and_eq_true, beq_iff_eq] at hb
    exact hnoY w (by rw [← hdb1w]; exact hw) hb
  have hfaS : (findWalletByAddress (deleteVerificationValue db v.id)
      cr2.withChecksumFormat).isSome := by
    unfold findWalletByAddress
    rw [List.find?_isSome]
    exact ⟨wX, by rw [hdb1w]; exact hwXmem, by simpa using hwXaddr⟩
  obtain ⟨w1, hw1⟩ := Option.isSome_iff_exists.mp hfaS
  have hw1mem : w1 ∈ db.wallets := by
    have hm := List.mem_of_find?_eq_some hw1
    rwa [hdb1w] at hm
  have hw1addr : w1.address = cr2.withChecksumFormat := by
    have hp := List.find?_some hw1
    simpa using hp
  have hw1uid : w1.userId = u := hconsist w1 hw1mem hw1addr
  have hfuS : (findUserById (deleteVerificationValue db v.id) w1.userId).isSome := by
    unfold findUserById
    rw [List.find?_isSome]
    refine ⟨usr0, by rw [hdb1u]; exact husr0mem, ?_⟩
    simp [husr0id, hw1uid]
  obtain ⟨u1, hu1⟩ := Option.isSome_iff_exists.mp hfuS
  have hu1id : u1.id = u := by
    have hp := List.find?_some hu1
    rw [hw1uid] at hp
    simpa using hp
  have hres : resolveUser (deleteVerificationValue db v.id) cr2.withChecksumFormat
      body.chainId = (none, some u1) := by
    unfold resolveUser
    dsimp only
    simp only [hfw, hw1, hu1]
  cases tok with
  | none =>
    rw [hchar] at hok
    unfold finishVerify at hok
    simp only [hres] at hok
    simp at hok
  | some t =>
    rw [hchar] at hok ⊢
    unfold finishVerify at hok ⊢
    simp only [hres] at hok ⊢
    have hokeq : ok = { token := some t, user := u1 } := by
      simpa using hok.symm
    constructor
    · rw [hokeq]
      exact hu1id
    constructor
    · refine ⟨⟨u1.id, cr2.withChecksumFormat, body.chainId, false⟩, ?_, rfl, rfl, hu1id, rfl⟩
      show _ ∈ (createWalletAndAccount (deleteVerificationValue db v.id) u1.id
        cr2.withChecksumFormat body.chainId false).wallets
      unfold createWalletAndAccount
      dsimp only
      exact List.mem_append_right _ (by simp)
    · refine ⟨⟨(deleteVerificationValue db v.id).nextId, u1.id, "siwh",
        cr2.withChecksumFormat ++ ":" ++ chainIdStr body.chainId⟩, ?_, hu1id, rfl, rfl⟩
      show _ ∈ (createWalletAndAccount (deleteVerificationValue db v.id) u1.id
        cr2.withChecksumFormat body.chainId false).accounts
      unfold createWalletAndAccount
      dsimp only
      exact List.mem_append_right _ (by simp)

/-! ## Claim C9: the verifier sees the raw address, the stores the
checksummed one -/

theorem finishVerify_wallets (opts : SiwhOptions) (tok : Option String) (db1 : DB)
    (body : VerifyBody) (wa : String) (args : VerifyMessageArgs) (key : String) :
    ∃ l, (finishVerify opts tok db1 body wa args key).db.wallets = db1.wallets ++ l ∧
      ∀ w ∈ l, w.address = wa := by
  unfold finishVerify createWalletAndAccount
  dsimp only
  repeat' split
  all_goals first
    | exact ⟨[], (List.append_nil _).symm, by simp⟩
    | refine ⟨[_], rfl, by simp⟩

theorem numToken_no_dash {n : List Char} (h : numToken n = true) : '-' ∉ n := by
  simp only [numToken, Bool.and_eq_true, Bool.or_eq_true, decide_eq_true_iff,
    List.all_eq_true] at h
  intro hmem
  have hd : ('-' : Char).isDigit = true := h.1.2 '-' hmem
  exact absurd hd (by decide)

/-- For every input the endpoint regex accepts, the checksummed canonical
form differs from the raw input: the former contains a dash, the latter is
digits and dots only. -/
theorem canonical_ne_raw {chain : HederaChainId} {s : String} {cr : ValidChecksumResult}
    (hacc : endpointAccepts s = true)
    (hcr : toChecksumAddress chain s = .valid cr) :
    cr.withChecksumFormat ≠ s := by
  rw [endpointAccepts] at hacc
  cases hp : endpointParse s.data with
  | none => rw [hp] at hacc; simp at hacc
  | some v =>
    obtain ⟨n1, n2, n3⟩ := v
    have hpa := endpointParse_gives_parseAddr hp
    rw [toChecksumAddress, hpa] at hcr
    simp only [ChecksumAddressResult.valid.injEq] at hcr
    intro he
    have hdashmem : '-' ∈ cr.withChecksumFormat.data := by
      rw [← hcr]
      show '-' ∈ ((Nat.repr (natOfDigits n1) ++ "." ++ Nat.repr (natOfDigits n2) ++ "." ++
        Nat.repr (natOfDigits n3)) ++ "-" ++ checksum (ledgerIdMap chain)
          (Nat.repr (natOfDigits n1) ++ "." ++ Nat.repr (natOfDigits n2) ++ "." ++
            Nat.repr (natOfDigits n3))).data
      simp [String.data_append]
    rw [he] at hdashmem
    obtain ⟨hs, h1, h2, h3, _⟩ := parseAddr_sound hpa
    rw [hs] at hdashmem
    simp only [sufRest, List.append_nil] at hdashmem
    rcases List.mem_append.mp hdashmem with hm | hm
    · exact numToken_no_dash h1 hm
    · rcases List.mem_cons.mp hm with hm2 | hm2
      · exact absurd hm2 (by decide)
      · rcases List.mem_append.mp hm2 with hm3 | hm3
        · exact numToken_no_dash h2 hm3
        · rcases List.mem_cons.mp hm3 with hm4 | hm4
          · exact absurd hm4 (by decide)
          · exact numToken_no_dash h3 hm4

theorem verify_args_inv {opts : SiwhOptions} {verifier : VerifyMessageArgs → Bool}
    {now : Int} {tok : Option String} {db : DB} {body : VerifyBody}
    {args : VerifyMessageArgs}
    (h : (verifySiwhMessage opts verifier now tok db body).verifierArgs = some args) :
    ∃ cr key v, verifyGate opts body = .ok (cr, key) ∧
      consumeCheck db now key = .ok v ∧
      args = mkVerifierArgs opts body.message body.signature body.walletAddress
        body.chainId v.value ∧
      (verifySiwhMessage opts verifier now tok db body).nonceKey = some key ∧
      ∃ l, (verifySiwhMessage opts verifier now tok db body).db.wallets = db.wallets ++ l ∧
        ∀ w ∈ l, w.address = cr.withChecksumFormat := by
  cases hgate : verifyGate opts body with
  | error e => simp [verifySiwhMessage, hgate] at h
  | ok p =>
    obtain ⟨cr, key⟩ := p
    cases hcons : consumeCheck db now key with
    | error e => simp [verifySiwhMessage, hgate, hcons] at h
    | ok v =>
      by_cases hver : verifier (mkVerifierArgs opts body.message body.signature
          body.walletAddress body.chainId v.value) = true
      · have heq : verifySiwhMessage opts verifier now tok db body
            = finishVerify opts tok (deleteVerificationValue db v.id) body
                cr.withChecksumFormat
                (mkVerifierArgs opts body.message body.signature body.walletAddress
                  body.chainId v.value) key := by
          simp only [verifySiwhMessage, hgate, hcons]
          rw [if_pos hver]
        have hghost := finishVerify_ghost opts tok (deleteVerificationValue db v.id) body
          cr.withChecksumFormat
          (mkVerifierArgs opts body.message body.signature body.walletAddress
            body.chainId v.value) key
        have hargs : args = mkVerifierArgs opts body.message body.signature
            body.walletAddress body.chainId v.value := by
          rw [heq, hghost.1] at h
          exact (Option.some.inj h).symm
        obtain ⟨l, hl, hlw⟩ := finishVerify_wallets opts tok (deleteVerificationValue db v.id)
          body cr.withChecksumFormat
          (mkVerifierArgs opts body.message body.signature body.walletAddress
            body.chainId v.value) key
        refine ⟨cr, key, v, rfl, hcons, hargs, ?_, l, ?_, hlw⟩
        · rw [heq]
          exact hghost.2
        · rw [heq, hl]
          rfl
      · have hverf : verifier (mkVerifierArgs opts body.message body.signature
            body.walletAddress body.chainId v.value) = false := by
          revert hver
          cases verifier (mkVerifierArgs opts body.message body.signature
            body.walletAddress body.chainId v.value) <;> simp
        have heq : verifySiwhMessage opts verifier now tok db body
            = ⟨.failure .signatureVerificationFailed, db,
                some (mkVerifierArgs opts body.message body.signature body.walletAddress
                  body.chainId v.value), some key⟩ := by
          simp only [verifySiwhMessage, hgate, hcons]
          rw [if_neg (by simp [hverf])]
        have hargs : args = mkVerifierArgs opts body.message body.signature
            body.walletAddress body.chainId v.value := by
          rw [heq] at h
          exact (Option.some.inj h).symm
        refine ⟨cr, key, v, rfl, hcons, hargs, ?_, [], ?_, by simp⟩
        · rw [heq]
        · rw [heq]
          simp

theorem linkGate_ok {session : Option SessionInfo} {body : LinkBody} {s : SessionInfo}
    {cr : ValidChecksumResult} {key : String}
    (h : linkGate session body = .ok (s, cr, key)) :
    endpointAccepts body.walletAddress = true ∧ session = some s ∧
    s.isAnonymous = false ∧
    toChecksumAddress body.chainId body.walletAddress = .valid cr ∧
    key = "siwh:" ++ cr.withChecksumFormat ++ ":" ++ chainIdStr body.chainId := by
  unfold linkGate at h
  split at h
  · rename_i hacc
    split at h
    · exact absurd h (by simp)
    · rename_i s2
      split at h
      · exact absurd h (by simp)
      · rename_i hanon
        split at h
        · exact absurd h (by simp)
        · rename_i cr2 hcr
          simp only [Except.ok.injEq, Prod.mk.injEq] at h
          obtain ⟨hs, hc, hk⟩ := h
          subst hs
          subst hc
          subst hk
          exact ⟨hacc, rfl, by simpa using hanon, hcr, rfl⟩
  · exact absurd h (by simp)

theorem finishLink_ghost (s : SessionInfo) (db1 : DB) (body : LinkBody)
    (walletAddress : String) (args : VerifyMessageArgs) (key : String) :
    (finishLink s db1 body walletAddress args key).verifierArgs = some args ∧
    (finishLink s db1 body walletAddress args key).nonceKey = some key := by
  unfold finishLink
  constructor
  all_goals
    repeat' split
    all_goals rfl

theorem finishLink_wallets (s : SessionInfo) (db1 : DB) (body : LinkBody)
    (walletAddress : String) (args : VerifyMessageArgs) (key : String) :
    ∃ l, (finishLink s db1 body walletAddress args key).db.wallets = db1.wallets ++ l ∧
      ∀ w ∈ l, w.address = walletAddress := by
  unfold finishLink createWalletAndAccount
  dsimp only
  repeat' split
  all_goals first
    | exact ⟨[], (List.append_nil _).symm, by simp⟩
    | refine ⟨[_], rfl, by simp⟩

theorem link_args_inv {opts : SiwhOptions} {verifier : VerifyMessageArgs → Bool}
    {now : Int} {session : Option SessionInfo} {db : DB} {lbody : LinkBody}
    {args : VerifyMessageArgs}
    (h : (linkSiwhWallet opts verifier now session db lbody).verifierArgs = some args) :
    ∃ s cr key v, linkGate session lbody = .ok (s, cr, key) ∧
      consumeCheck db now key = .ok v ∧
      args = mkVerifierArgs opts lbody.message lbody.signature lbody.walletAddress
        lbody.chainId v.value ∧
      (linkSiwhWallet opts verifier now session db lbody).nonceKey = some key ∧
      ∃ l, (linkSiwhWallet opts verifier now session db lbody).db.wallets
          = db.wallets ++ l ∧
        ∀ w ∈ l, w.address = cr.withChecksumFormat := by
  cases hgate : linkGate session lbody with
  | error e => simp [linkSiwhWallet, hgate] at h
  | ok p =>
    obtain ⟨s, cr, key⟩ := p
    cases hcons : consumeCheck db now key with
    | error e => simp [linkSiwhWallet, hgate, hcons] at h
    | ok v =>
      by_cases hver : verifier (mkVerifierArgs opts lbody.message lbody.signature
          lbody.walletAddress lbody.chainId v.value) = true
      · have heq : linkSiwhWallet opts verifier now session db lbody
            = finishLink s (deleteVerificationValue db v.id) lbody cr.withChecksumFormat
                (mkVerifierArgs opts lbody.message lbody.signature lbody.walletAddress
                  lbody.chainId v.value) key := by
          simp only [linkSiwhWallet, hgate, hcons]
          rw [if_pos hver]
        have hghost := finishLink_ghost s (deleteVerificationValue db v.id) lbody
          cr.withChecksumFormat
          (mkVerifierArgs opts lbody.message lbody.signature lbody.walletAddress
            lbody.chainId v.value) key
        have hargs : args = mkVerifierArgs opts lbody.message lbody.signature
            lbody.walletAddress lbody.chainId v.value := by
          rw [heq, hghost.1] at h
          exact (Option.some.inj h).symm
        obtain ⟨l, hl, hlw⟩ := finishLink_wallets s (deleteVerificationValue db v.id) lbody
          cr.withChecksumFormat
          (mkVerifierArgs opts lbody.message lbody.signature lbody.walletAddress
            lbody.chainId v.value) key
        refine ⟨s, cr, key, v, rfl, hcons, hargs, ?_, l, ?_, hlw⟩
        · rw [heq]
          exact hghost.2
        · rw [heq, hl]
          rfl
      · have hverf : verifier (mkVerifierArgs opts lbody.message lbody.signature
            lbody.walletAddress lbody.chainId v.value) = false := by
          revert hver
          cases verifier (mkVerifierArgs opts lbody.message lbody.signature
            lbody.walletAddress lbody.chainId v.value) <;> simp
        have heq : linkSiwhWallet opts verifier now session db lbody
            = ⟨.failure .signatureVerificationFailed, db,
                some (mkVerifierArgs opts lbody.message lbody.signature lbody.walletAddress
                  lbody.chainId v.value), some key⟩ := by
          simp only [linkSiwhWallet, hgate, hcons]
          rw [if_neg (by simp [hverf])]
        have hargs : args = mkVerifierArgs opts lbody.message lbody.signature
            lbody.walletAddress lbody.chainId v.value := by
          rw [heq] at h
          exact (Option.some.inj h).symm
        refine ⟨s, cr, key, v, rfl, hcons, hargs, ?_, [], ?_, by simp⟩
        · rw [heq]
        · rw [heq]
          simp

/-- C9: in the current verify and link handlers, whenever the injected
`verifyMessage` capability is invoked, its `address` argument is the raw,
un-checksummed request address, while the nonce was looked up under
`siwh:{checksummedAddress}:{chainId}` and every wallet record the request
adds stores the checksummed form; the checksummed form differs from the raw
address on every request that reaches the verifier. -/
theorem verifier_gets_raw_address (opts : SiwhOptions)
    (verifier : VerifyMessageArgs → Bool) (now : Int) (tok : Option String) (db : DB)
    (body : VerifyBody) (session : Option SessionInfo) (lbody : LinkBody) :
    (∀ args, (verifySiwhMessage opts verifier now tok db body).verifierArgs = some args →
      args.address = body.walletAddress ∧
      ∃ cr, toChecksumAddress body.chainId body.walletAddress = .valid cr ∧
        (verifySiwhMessage opts verifier now tok db body).nonceKey
          = some ("siwh:" ++ cr.withChecksumFormat ++ ":" ++ chainIdStr body.chainId) ∧
        cr.withChecksumFormat ≠ body.walletAddress ∧
        ∀ w ∈ (verifySiwhMessage opts verifier now tok db body).db.wallets,
          w ∉ db.wallets → w.address = cr.withChecksumFormat) ∧
    (∀ args, (linkSiwhWallet opts verifier now session db lbody).verifierArgs = some args →
      args.address = lbody.walletAddress ∧
      ∃ cr, toChecksumAddress lbody.chainId lbody.walletAddress = .valid cr ∧
        (linkSiwhWallet opts verifier now session db lbody).nonceKey
          = some ("siwh:" ++ cr.withChecksumFormat ++ ":" ++ chainIdStr lbody.chainId) ∧
        cr.withChecksumFormat ≠ lbody.walletAddress ∧
        ∀ w ∈ (linkSiwhWallet opts verifier now session db lbody).db.wallets,
          w ∉ db.wallets → w.address = cr.withChecksumFormat) := by
  constructor
  · intro args h
    obtain ⟨cr, key, v, hgate, hcons, hargs, hnk, l, hl, hlw⟩ := verify_args_inv h
    obtain ⟨hacc, hcr, hkey⟩ := verifyGate_ok hgate
    refine ⟨by rw [hargs]; rfl, cr, hcr, by rw [hnk, hkey], canonical_ne_raw hacc hcr, ?_⟩
    intro w hw hnot
    rw [hl] at hw
    rcases List.mem_append.mp hw with hm | hm
    · exact absurd hm hnot
    · exact hlw w hm
  · intro args h
    obtain ⟨s, cr, key, v, hgate, hcons, hargs, hnk, l, hl, hlw⟩ := link_args_inv h
    obtain ⟨hacc, hsess, hanon, hcr, hkey⟩ := linkGate_ok hgate
    refine ⟨by rw [hargs]; rfl, cr, hcr, by rw [hnk, hkey], canonical_ne_raw hacc hcr, ?_⟩
    intro w hw hnot
    rw [hl] at hw
    rcases List.mem_append.mp hw with hm | hm
    · exact absurd hm hnot
    · exact hlw w hm

/-! ## Concrete evaluations (the extraction loop is bridged through
`checksum_eq_digits`, since the kernel cannot reduce `ℚ` normalisation) -/

theorem checksum_00_0_0_123 :
    checksum (ledgerIdMap HederaChainId.mainnet)
      (Nat.repr (natOfDigits ['0']) ++ "." ++ Nat.repr (natOfDigits ['0']) ++ "." ++
        Nat.repr (natOfDigits ['1', '2', '3'])) = "vfmkw" := by
  rw [checksum_eq_digits]
  decide

theorem toChecksum_123_mainnet :
    toChecksumAddress .mainnet "0.0.123" = .valid
      ⟨true, 2, 0, 0, 123, none, "vfmkw", "0.0.123", "0.0.123-vfmkw"⟩ := by
  unfold toChecksumAddress
  rw [show parseAddr "0.0.123".data = some (['0'], ['0'], ['1', '2', '3'], none) from
    by decide]
  dsimp only
  rw [checksum_00_0_0_123]
  decide

/-- C6 fails on the code: a caller owning more than one linked-auth record,
among them a `siwh` record for the requested `(address, chainId)` in
exactly the form this plugin's own `createWalletAndAccount` stores it
(`accountId = checksummedAddress ++ ":" ++ chainId`), with the matching
`walletAddress` row present, is answered `accountNotFound` by unlink
instead of having the pair deleted: the handler compares each `accountId`
against the bare checksummed address (`"0.0.123-vfmkw"`), which no
plugin-created record ever equals. The last conjunct checks that the
account record in this state is literally what the plugin creates. -/
theorem unlink_misses_plugin_accounts :
    (unlinkSiwhWallet false (some c6Session) c6Db ⟨"0.0.123", .mainnet⟩).result
      = .failure .accountNotFound ∧
    (∃ a ∈ c6Db.accounts, a.userId = c6Session.userId ∧ a.providerId = "siwh" ∧
      a.accountId = "0.0.123-vfmkw" ++ ":" ++ chainIdStr .mainnet) ∧
    (∃ w ∈ c6Db.wallets, w.address = "0.0.123-vfmkw" ∧ w.chainId = .mainnet ∧
      w.userId = c6Session.userId) ∧
    (unlinkSiwhWallet false (some c6Session) c6Db ⟨"0.0.123", .mainnet⟩).db = c6Db ∧
    (createWalletAndAccount ⟨[], [], [], [], 1⟩ 7 "0.0.123-vfmkw" .mainnet true).accounts
      = [⟨1, 7, "siwh", "0.0.123-vfmkw:hedera:mainnet"⟩] := by
  have hu : unlinkSiwhWallet false (some c6Session) c6Db ⟨"0.0.123", .mainnet⟩
      = ⟨.failure .accountNotFound, c6Db⟩ := by
    unfold unlinkSiwhWallet
    rw [if_pos (by decide)]
    dsimp only
    rw [toChecksum_123_mainnet]
    dsimp only
    decide
  refine ⟨by rw [hu], by decide, by decide, by rw [hu], by decide⟩

theorem toChecksum_123_testnet :
    toChecksumAddress .testnet "0.0.123" = .valid
      ⟨true, 2, 0, 0, 123, none, "esxsf", "0.0.123", "0.0.123-esxsf"⟩ := by
  unfold toChecksumAddress
  rw [show parseAddr "0.0.123".data = some (['0'], ['0'], ['1', '2', '3'], none) from
    by decide]
  dsimp only
  rw [show checksum (ledgerIdMap HederaChainId.testnet)
      (Nat.repr (natOfDigits ['0']) ++ "." ++ Nat.repr (natOfDigits ['0']) ++ "." ++
        Nat.repr (natOfDigits ['1', '2', '3'])) = "esxsf" from by
    rw [checksum_eq_digits]; decide]
  decide

theorem toChecksum_123_devnet :
    toChecksumAddress .devnet "0.0.123" = .valid
      ⟨true, 2, 0, 0, 123, none, "esxsf", "0.0.123", "0.0.123-esxsf"⟩ := by
  unfold toChecksumAddress
  rw [show parseAddr "0.0.123".data = some (['0'], ['0'], ['1', '2', '3'], none) from
    by decide]
  dsimp only
  rw [show checksum (ledgerIdMap HederaChainId.devnet)
      (Nat.repr (natOfDigits ['0']) ++ "." ++ Nat.repr (natOfDigits ['0']) ++ "." ++
        Nat.repr (natOfDigits ['1', '2', '3'])) = "esxsf" from by
    rw [checksum_eq_digits]; decide]
  decide

theorem wGate_eval : verifyGate wOpts wBody = .ok
    (⟨true, 2, 0, 0, 123, none, "vfmkw", "0.0.123", "0.0.123-vfmkw"⟩,
     "siwh:0.0.123-vfmkw:hedera:mainnet") := by
  unfold verifyGate
  rw [if_pos (by decide)]
  rw [show toChecksumAddress wBody.chainId wBody.walletAddress = .valid
    ⟨true, 2, 0, 0, 123, none, "vfmkw", "0.0.123", "0.0.123-vfmkw"⟩ from
    toChecksum_123_mainnet]
  rfl

theorem w5Gate_eval : verifyGate wOpts w5Body = .ok
    (⟨true, 2, 0, 0, 123, none, "esxsf", "0.0.123", "0.0.123-esxsf"⟩,
     "siwh:0.0.123-esxsf:hedera:devnet") := by
  unfold verifyGate
  rw [if_pos (by decide)]
  rw [show toChecksumAddress w5Body.chainId w5Body.walletAddress = .valid
    ⟨true, 2, 0, 0, 123, none, "esxsf", "0.0.123", "0.0.123-esxsf"⟩ from
    toChecksum_123_devnet]
  rfl

theorem wVerify_eval : verifySiwhMessage wOpts (fun _ => true) 0 (some "t") wDb wBody
    = ⟨.success ⟨none, ⟨0, "0.0.123-vfmkw@origin", "0.0.123-vfmkw"⟩⟩,
        ⟨[], [⟨0, "0.0.123-vfmkw", .mainnet, true⟩],
         [⟨1, 0, "siwh", "0.0.123-vfmkw:hedera:mainnet"⟩],
         [⟨0, "0.0.123-vfmkw@origin", "0.0.123-vfmkw"⟩], 2⟩,
        some wArgs, some "siwh:0.0.123-vfmkw:hedera:mainnet"⟩ := by
  unfold verifySiwhMessage
  simp only [wGate_eval]
  decide

theorem w5Verify_result :
    (verifySiwhMessage wOpts (fun _ => true) 0 (some "t") w5Db w5Body).result
      = .success ⟨some "t", ⟨7, "seven@example.com", "seven"⟩⟩ := by
  unfold verifySiwhMessage
  simp only [w5Gate_eval]
  decide

theorem c5Verify_eval : verifySiwhMessage wOpts (fun _ => true) 0 (some "t") c5Db wBody
    = ⟨.success ⟨none, ⟨10, "0.0.123-vfmkw@origin", "0.0.123-vfmkw"⟩⟩,
        ⟨[], [⟨7, "0.0.123-esxsf", .testnet, true⟩, ⟨10, "0.0.123-vfmkw", .mainnet, true⟩],
         [⟨2, 7, "siwh", "0.0.123-esxsf:hedera:testnet"⟩,
          ⟨11, 10, "siwh", "0.0.123-vfmkw:hedera:mainnet"⟩],
         [⟨7, "seven@example.com", "seven"⟩,
          ⟨10, "0.0.123-vfmkw@origin", "0.0.123-vfmkw"⟩], 12⟩,
        some wArgs, some "siwh:0.0.123-vfmkw:hedera:mainnet"⟩ := by
  unfold verifySiwhMessage
  simp only [wGate_eval]
  decide

/-- Counterexample to C5 as stated: user 7 holds exactly the wallet
credential the plugin itself stores for `(0.0.123, testnet)` and no mainnet
credential, yet a successful verify for `(0.0.123, mainnet)` does not
resolve to user 7 — the address-only lookup compares the mainnet canonical
form `0.0.123-vfmkw` against the stored testnet form `0.0.123-esxsf` — and
instead creates a brand-new identity (id 10) with a new primary
credential. -/
theorem cross_chain_claimed_fails :
    toChecksumAddress .testnet "0.0.123" = .valid
      ⟨true, 2, 0, 0, 123, none, "esxsf", "0.0.123", "0.0.123-esxsf"⟩ ∧
    toChecksumAddress .mainnet "0.0.123" = .valid
      ⟨true, 2, 0, 0, 123, none, "vfmkw", "0.0.123", "0.0.123-vfmkw"⟩ ∧
    c5Db.wallets = [⟨7, "0.0.123-esxsf", .testnet, true⟩] ∧
    c5Db.users = [⟨7, "seven@example.com", "seven"⟩] ∧
    (verifySiwhMessage wOpts (fun _ => true) 0 (some "t") c5Db wBody).result
      = .success ⟨none, ⟨10, "0.0.123-vfmkw@origin", "0.0.123-vfmkw"⟩⟩ ∧
    (verifySiwhMessage wOpts (fun _ => true) 0 (some "t") c5Db wBody).db.wallets
      = [⟨7, "0.0.123-esxsf", .testnet, true⟩, ⟨10, "0.0.123-vfmkw", .mainnet, true⟩] := by
  refine ⟨toChecksum_123_testnet, toChecksum_123_mainnet, by decide, by decide, ?_, ?_⟩
  · rw [c5Verify_eval]
  · rw [c5Verify_eval]

/-! ## Witnesses -/

/-- Witness for C1 at ledger id `"00"` and address `"0.0.123"`. -/
theorem checksum_implements_spec_witness :
    checksum "00" "0.0.123" = specChecksum "00" "0.0.123" :=
  checksum_implements_spec "00" "0.0.123" (by decide) (by decide) (by decide)

/-- Witness for C2 at mainnet and `"0.0.123"`. -/
theorem toChecksumAddress_correct_witness :
    ((toChecksumAddress HederaChainId.mainnet "0.0.123" = .invalid) ↔
      ¬ specWellFormed "0.0.123") ∧
    (⟨true, 2, 0, 0, 123, none, "vfmkw", "0.0.123", "0.0.123-vfmkw"⟩ :
      ValidChecksumResult).status = 2 := by
  have h := toChecksumAddress_correct HederaChainId.mainnet "0.0.123"
  exact ⟨h.1, ((h.2.1 _ toChecksum_123_mainnet).2.1 rfl).1⟩

/-- Witness for C3: after the successful mainnet verify consumed the nonce,
replaying the same request fails with the nonce error. -/
theorem nonce_single_use_witness :
    (verifySiwhMessage wOpts (fun _ => true) 0 (some "t")
        (verifySiwhMessage wOpts (fun _ => true) 0 (some "t") wDb wBody).db wBody).result
      = .failure .nonceNotFoundOrExpired :=
  ((nonce_single_use wOpts (fun _ => true) 0 (some "t") wDb wBody (by decide)).1
    ⟨none, ⟨0, "0.0.123-vfmkw@origin", "0.0.123-vfmkw"⟩⟩ (by rw [wVerify_eval])).2
    (fun _ => true) 0 (some "t")

/-- Witness for C4: a rejecting verifier leaves the state — nonce included —
untouched. -/
theorem failed_verification_preserves_nonce_witness :
    verifySiwhMessage wOpts (fun _ => false) 0 (some "t") wDb wBody
      = ⟨.failure .signatureVerificationFailed, wDb, some wArgs,
          some "siwh:0.0.123-vfmkw:hedera:mainnet"⟩ :=
  (failed_verification_preserves_nonce wOpts (fun _ => false) 0 (some "t") wDb wBody
    ⟨true, 2, 0, 0, 123, none, "vfmkw", "0.0.123", "0.0.123-vfmkw"⟩
    "siwh:0.0.123-vfmkw:hedera:mainnet"
    ⟨1, "siwh:0.0.123-vfmkw:hedera:mainnet", "nonce1", 100⟩
    wGate_eval rfl rfl).1

/-- Witness for the amended C5: a devnet sign-in for `0.0.123` resolves to
the identity holding the testnet credential (same ledger id, same canonical
form) and gains a non-primary devnet credential. -/
theorem cross_chain_resolution_witness :
    (⟨some "t", ⟨7, "seven@example.com", "seven"⟩⟩ : VerifyOk).user.id = 7 ∧
    (∃ w ∈ (verifySiwhMessage wOpts (fun _ => true) 0 (some "t") w5Db w5Body).db.wallets,
      w.address = "0.0.123-esxsf" ∧ w.chainId = HederaChainId.devnet ∧ w.userId = 7 ∧
      w.isPrimary = false) := by
  have h := cross_chain_resolution wOpts (fun _ => true) 0 (some "t") w5Db w5Body
    ⟨true, 2, 0, 0, 123, none, "esxsf", "0.0.123", "0.0.123-esxsf"⟩ .testnet 7
    ⟨some "t", ⟨7, "seven@example.com", "seven"⟩⟩ toChecksum_123_devnet
    (by decide) (by decide) (by decide) (by decide) w5Verify_result
  exact ⟨h.1, h.2.1⟩

/-- Witness for C7 at the byte list `[0, 77, 255]`. -/
theorem signature_base64_roundtrip_witness :
    base64ToSignatureNode (signatureToBase64Node [0, 77, 255]) = some [0, 77, 255] :=
  (signature_base64_roundtrip [0, 77, 255] (by decide)).1

/-- Witness for C8 at testnet and `"0.0.5"`. -/
theorem endpoint_body_always_usable_witness :
    ∃ r, toChecksumAddress HederaChainId.testnet "0.0.5" = .valid r ∧ r.status = 2 ∧
      r.isValid = true ∧ r.givenChecksum = none :=
  endpoint_body_always_usable HederaChainId.testnet "0.0.5" (by decide)

/-- Witness for C9 at the concrete mainnet verify request. -/
theorem verifier_gets_raw_address_witness :
    wArgs.address = wBody.walletAddress ∧
    ∃ cr, toChecksumAddress wBody.chainId wBody.walletAddress = .valid cr ∧
      (verifySiwhMessage wOpts (fun _ => true) 0 (some "t") wDb wBody).nonceKey
        = some ("siwh:" ++ cr.withChecksumFormat ++ ":" ++ chainIdStr wBody.chainId) ∧
      cr.withChecksumFormat ≠ wBody.walletAddress ∧
      ∀ w ∈ (verifySiwhMessage wOpts (fun _ => true) 0 (some "t") wDb wBody).db.wallets,
        w ∉ wDb.wallets → w.address = cr.withChecksumFormat :=
  (verifier_gets_raw_address wOpts (fun _ => true) 0 (some "t") wDb wBody none
    ⟨"m", "AA==", "0.0.1", .mainnet⟩).1 wArgs (by rw [wVerify_eval])

/-- Witness for C10 at ledger id `"00"` and address `"0.0.123"`. -/
theorem checksum_extraction_digits_witness :
    (checksum "00" "0.0.123").length = 5 ∧ checksumCp "00" "0.0.123" < p5 :=
  ⟨(checksum_extraction_digits "00" "0.0.123" (by decide) (by decide)).1,
   (checksum_extraction_digits "00" "0.0.123" (by decide) (by decide)).2.1⟩

end BetterAuthHedera

